import Mathlib

/-!
# Verification of the YPBank record serialization library

Shallow embedding of the `parser` crate (src/parser/src): the record model,
the three codecs (delimited text / labeled text / binary) and the generic
sequence codec, together with theorems settling the specification claims.

Strings are modelled as lists of bytes (`List Nat`); byte sources and sinks
are lists of bytes.  Machine integers are `Nat`/`Int` with explicit
`% 2 ^ w` where overflow matters.
-/

namespace YPBank

/-- Bytes of an ASCII string literal (all literals used by the library are
ASCII, so the byte value of each character is its code point). -/
def asciiBytes (s : String) : List Nat := s.data.map Char.toNat

/-! ## Domain value model (src/parser/src/common.rs, src/parser/src/record.rs)

The string token constants live in `crate::constant`, which is not present
under `src/`.  Modelled from the spec: §3 fixes the tokens as the uppercase
names of the enum variants, and the embedded tests in `csv_format.rs` /
`txt_format.rs` pin `DEPOSIT`, `TRANSFER`, `FAILURE`, `PENDING`, `SUCCESS`.
-/

/-- `TransactionType` (common.rs). -/
inductive TransactionType where
  | deposit
  | transfer
  | withdrawal
deriving DecidableEq, Repr

/-- `TransactionStatus` (common.rs). -/
inductive TransactionStatus where
  | success
  | failure
  | pending
deriving DecidableEq, Repr

/-- `Format` (common.rs). -/
inductive Format where
  | csv
  | txt
  | bin
deriving DecidableEq, Repr

/-- `ParseError` (error.rs); string payloads are byte lists. -/
inductive ParseError where
  | ioError (msg : List Nat)
  | invalidTransactionTypeValue (s : List Nat)
  | invalidStatusValue (s : List Nat)
  | invalidUserId (s : List Nat) (t : TransactionType)
  | invalidRawValue (s : List Nat)
  | invalidRow (s : List Nat)
  | invalidCsvHeader (s : List Nat)
  | unexpectedEOF
  | fieldNotFound (s : List Nat)
  | inconsistentRecord (s : List Nat)
  | invalidMagic (s : List Nat)
  | invalidFormat (s : List Nat)
deriving DecidableEq, Repr

/-- `YPBankRecord` (record.rs).  `amount` is the only signed field. -/
structure YPBankRecord where
  id : Nat
  transaction_type : TransactionType
  from_user_id : Nat
  to_user_id : Nat
  amount : Int
  ts : Nat
  status : TransactionStatus
  description : List Nat
deriving DecidableEq, Repr

/-- Modelled from the spec: `crate::constant::DEPOSIT` (see §3 of the spec
and the token strings appearing in the embedded tests). -/
def DEPOSIT : List Nat := asciiBytes "DEPOSIT"

/-- Modelled from the spec: `crate::constant::TRANSFER`. -/
def TRANSFER : List Nat := asciiBytes "TRANSFER"

/-- Modelled from the spec: `crate::constant::WITHDRAWAL`. -/
def WITHDRAWAL : List Nat := asciiBytes "WITHDRAWAL"

/-- Modelled from the spec: `crate::constant::SUCCESS`. -/
def SUCCESS : List Nat := asciiBytes "SUCCESS"

/-- Modelled from the spec: `crate::constant::FAILURE`. -/
def FAILURE : List Nat := asciiBytes "FAILURE"

/-- Modelled from the spec: `crate::constant::PENDING`. -/
def PENDING : List Nat := asciiBytes "PENDING"

/-- `TransactionType::as_str` (common.rs). -/
def TransactionType.asStr : TransactionType → List Nat
  | .deposit => DEPOSIT
  | .transfer => TRANSFER
  | .withdrawal => WITHDRAWAL

/-- `TransactionType::as_int` (common.rs). -/
def TransactionType.asInt : TransactionType → Nat
  | .deposit => 0
  | .transfer => 1
  | .withdrawal => 2

/-- `TransactionStatus::as_str` (common.rs). -/
def TransactionStatus.asStr : TransactionStatus → List Nat
  | .success => SUCCESS
  | .failure => FAILURE
  | .pending => PENDING

/-- `TransactionStatus::as_int` (common.rs). -/
def TransactionStatus.asInt : TransactionStatus → Nat
  | .success => 0
  | .failure => 1
  | .pending => 2

/-- ASCII uppercasing of a byte, modelling `str::to_uppercase` on the ASCII
subset that the token comparisons can match. -/
def upperByte (b : Nat) : Nat := if 97 ≤ b ∧ b ≤ 122 then b - 32 else b

/-- ASCII uppercasing of a byte string. -/
def upperBytes (bs : List Nat) : List Nat := bs.map upperByte

/-- Decimal digits of a positive number, least significant first; `fuel`
bounds the recursion depth (callers use a fuel of at least the digit
count). -/
def natDigitsRev : Nat → Nat → List Nat
  | 0, _ => []
  | _ + 1, 0 => []
  | fuel + 1, n + 1 => ((n + 1) % 10 + 48) :: natDigitsRev fuel ((n + 1) / 10)

/-- ASCII bytes of the decimal rendering of a `Nat`, modelling
`u64::to_string` (and `{}` formatting of unsigned integers). -/
def natDecimal (n : Nat) : List Nat :=
  if n = 0 then [48] else (natDigitsRev 30 n).reverse

/-- ASCII bytes of the decimal rendering of an `Int`, modelling
`i64::to_string`. -/
def intDecimal (v : Int) : List Nat :=
  if v < 0 then 45 :: natDecimal (-v).toNat else natDecimal v.toNat

/-- Value of a digit string, accumulator form (`none` on a non-digit). -/
def digitsValAux (acc : Nat) : List Nat → Option Nat
  | [] => some acc
  | b :: bs => if 48 ≤ b ∧ b ≤ 57 then digitsValAux (acc * 10 + (b - 48)) bs else none

/-- Value of a nonempty digit string. -/
def digitsVal : List Nat → Option Nat
  | [] => none
  | bs => digitsValAux 0 bs

/-- `str::parse::<u64>`: optional leading `+`, then decimal digits, with the
`u64` range check. -/
def parseU64 (bs : List Nat) : Option Nat :=
  match digitsVal (if bs.head? = some 43 then bs.tail else bs) with
  | none => none
  | some v => if v < 2 ^ 64 then some v else none

/-- `str::parse::<i64>`: optional sign, then decimal digits, with the `i64`
range check. -/
def parseI64 (bs : List Nat) : Option Int :=
  if bs.head? = some 45 then
    match digitsVal bs.tail with
    | none => none
    | some v => if v ≤ 2 ^ 63 then some (-(v : Int)) else none
  else
    match digitsVal (if bs.head? = some 43 then bs.tail else bs) with
    | none => none
    | some v => if v < 2 ^ 63 then some (v : Int) else none

/-- `TransactionType::from_str` (common.rs): uppercase then exact token
match, else `InvalidTransactionTypeValue` carrying the original string. -/
def transactionTypeFromStr (bs : List Nat) : Except ParseError TransactionType :=
  let u := upperBytes bs
  if u = DEPOSIT then .ok .deposit
  else if u = TRANSFER then .ok .transfer
  else if u = WITHDRAWAL then .ok .withdrawal
  else .error (.invalidTransactionTypeValue bs)

/-- `TransactionStatus::from_str` (common.rs). -/
def transactionStatusFromStr (bs : List Nat) : Except ParseError TransactionStatus :=
  let u := upperBytes bs
  if u = SUCCESS then .ok .success
  else if u = FAILURE then .ok .failure
  else if u = PENDING then .ok .pending
  else .error (.invalidStatusValue bs)

/-- `TransactionType::from_int` (common.rs). -/
def transactionTypeFromInt (v : Nat) : Except ParseError TransactionType :=
  if v = 0 then .ok .deposit
  else if v = 1 then .ok .transfer
  else if v = 2 then .ok .withdrawal
  else .error (.invalidTransactionTypeValue (natDecimal v))

/-- `TransactionStatus::from_int` (common.rs). -/
def transactionStatusFromInt (v : Nat) : Except ParseError TransactionStatus :=
  if v = 0 then .ok .success
  else if v = 1 then .ok .failure
  else if v = 2 then .ok .pending
  else .error (.invalidStatusValue (natDecimal v))

/-- `validate_from_user_id` (common.rs lines 180-189). -/
def validate_from_user_id (val : Nat) (t : TransactionType) : Except ParseError Nat :=
  if val = 0 ∧ t ≠ .deposit then .error (.invalidUserId (natDecimal val) t) else .ok val

/-- `validate_to_user_id` (common.rs lines 191-197). -/
def validate_to_user_id (val : Nat) (t : TransactionType) : Except ParseError Nat :=
  if val = 0 ∧ t ≠ .withdrawal then .error (.invalidUserId (natDecimal val) t) else .ok val

/-- `parse_value_from_string::<u64>` (common.rs). -/
def parseU64Field (s : List Nat) : Except ParseError Nat :=
  match parseU64 s with
  | some v => .ok v
  | none => .error (.invalidRawValue s)

/-- `parse_value_from_string::<i64>` (common.rs). -/
def parseI64Field (s : List Nat) : Except ParseError Int :=
  match parseI64 s with
  | some v => .ok v
  | none => .error (.invalidRawValue s)

/-- `parse_from_user_id` (common.rs). -/
def parse_from_user_id (s : List Nat) (t : TransactionType) : Except ParseError Nat :=
  match parseU64 s with
  | none => .error (.invalidRawValue s)
  | some v => validate_from_user_id v t

/-- `parse_to_user_id` (common.rs). -/
def parse_to_user_id (s : List Nat) (t : TransactionType) : Except ParseError Nat :=
  match parseU64 s with
  | none => .error (.invalidRawValue s)
  | some v => validate_to_user_id v t

/-! ## Byte-stream primitives -/

/-- `BufRead::read_line`: the first line of the stream (up to and including
the first newline byte, or the whole stream if none) together with the rest.
An empty stream yields an empty line (`bytes_read == 0`). -/
def readLine : List Nat → List Nat × List Nat
  | [] => ([], [])
  | b :: bs =>
    if b = 10 then ([10], bs)
    else
      let p := readLine bs
      (b :: p.1, p.2)

/-- ASCII whitespace bytes, the ASCII fragment of `char::is_whitespace`. -/
def isWsByte (b : Nat) : Bool := b = 9 ∨ b = 10 ∨ b = 11 ∨ b = 12 ∨ b = 13 ∨ b = 32

/-- `str::trim` on the ASCII fragment. -/
def trimAscii (bs : List Nat) : List Nat :=
  ((bs.dropWhile isWsByte).reverse.dropWhile isWsByte).reverse

/-- `Read::read_exact` into a buffer of `n` bytes: `none` models the
`UnexpectedEof` I/O error when fewer than `n` bytes remain. -/
def readExact (n : Nat) (input : List Nat) : Option (List Nat × List Nat) :=
  if n ≤ input.length then some (input.take n, input.drop n) else none

/-- Big-endian value of a byte list. -/
def beVal (bs : List Nat) : Nat := bs.foldl (fun a b => a * 256 + b) 0

/-- `k` big-endian bytes of `n % 256 ^ k` (`to_be_bytes`). -/
def bytesBE : Nat → Nat → List Nat
  | 0, _ => []
  | k + 1, n => (n / 256 ^ k) % 256 :: bytesBE k n

/-! ## Delimited-text codec (src/parser/src/csv_format.rs) -/

/-- One step of the `Separator` iterator (csv_format.rs lines 29-56): scan
the current field, starting in quote state `q` with the reversed bytes read
so far in `acc`; emit the field at the first delimiter outside quotes, and
continue only if bytes remain after it (the iterator stops when its index
reaches the end of the line, which drops a trailing empty field). -/
def sepNext (q : Bool) (acc : List Nat) : List Nat → List (List Nat)
  | [] => [acc.reverse]
  | b :: bs =>
    if ¬q ∧ b = 44 then
      acc.reverse :: (match bs with
        | [] => []
        | _ :: _ => sepNext false [] bs)
    else
      sepNext (if b = 34 then !q else q) (b :: acc) bs

/-- The field list collected from the `Separator` iterator over one line
(`Separator::new(line)` then `collect`): an empty line yields no fields. -/
def sepCollect : List Nat → List (List Nat)
  | [] => []
  | b :: bs => sepNext false [] (b :: bs)

/-- Whether every delimiter byte of the string occurs inside a quoted span
when scanning from quote state `q` (so the tokenizer never splits there). -/
def noUnquotedSep : Bool → List Nat → Bool
  | _, [] => true
  | q, b :: bs =>
    if b = 44 ∧ ¬q then false
    else noUnquotedSep (if b = 34 then !q else q) bs

/-- Modelled from the spec: the plain quote-aware splitter the spec's words
describe - split at every delimiter occurring outside a quoted span, toggle
the quote state at every quote byte, keep quote bytes in the fields, and
always emit the field after the last delimiter (even when it is empty).
Used as the spec-side reference point for the tokenizer claims. -/
def specSplitFields (q : Bool) : List Nat → List (List Nat)
  | [] => [[]]
  | b :: bs =>
    if b = 44 ∧ ¬q then [] :: specSplitFields q bs
    else
      match specSplitFields (if b = 34 then !q else q) bs with
      | [] => [[b]]
      | t :: ts => (b :: t) :: ts

/-- The shared 8-field record construction: `TransactionType::from_str` on
field 1, then the argument chain of `YPBankRecord::new` evaluated left to
right, exactly as in `YPBankCsvRecordParser::from_raw_values` and
`YPBankTxtRecordParser::from_raw_values` (the two functions duplicate this
code verbatim). -/
def recordFromEight (v0 v1 v2 v3 v4 v5 v6 v7 : List Nat) :
    Except ParseError YPBankRecord := do
  let tt ← transactionTypeFromStr v1
  let id ← parseU64Field v0
  let tt2 ← match transactionTypeFromStr v1 with
    | .ok t => Except.ok t
    | .error _ => Except.error (.invalidRawValue v1)
  let fu ← parse_from_user_id v2 tt
  let tu ← parse_to_user_id v3 tt
  let am ← parseI64Field v4
  let ts ← parseU64Field v5
  let st ← match transactionStatusFromStr v6 with
    | .ok s => Except.ok s
    | .error _ => Except.error (.invalidRawValue v6)
  pure ⟨id, tt2, fu, tu, am, ts, st, v7⟩

/-- `YPBankCsvRecordParser::from_raw_values` (csv_format.rs lines 61-81). -/
def csvFromRawValues (vs : List (List Nat)) : Except ParseError YPBankRecord :=
  match vs with
  | [v0, v1, v2, v3, v4, v5, v6, v7] => recordFromEight v0 v1 v2 v3 v4 v5 v6 v7
  | _ => .error (.invalidRow (asciiBytes "Expected 8 fields, got " ++ natDecimal vs.length))

/-- `YPBankCsvRecordParser::from_read` (csv_format.rs lines 85-101): read a
line; end of stream or a whitespace-only line is the clean no-record
outcome, otherwise tokenize the trimmed line and build the record.  Returns
the unread rest of the stream alongside the outcome. -/
def csvRecordFromRead (input : List Nat) :
    Except ParseError (Option YPBankRecord × List Nat) :=
  let p := readLine input
  if p.1.length = 0 ∨ trimAscii p.1 = [] then .ok (none, p.2)
  else
    match csvFromRawValues (sepCollect (trimAscii p.1)) with
    | .error e => .error e
    | .ok r => .ok (some r, p.2)

/-- `YPBankCsvRecordParser::write_to` (csv_format.rs lines 103-118). -/
def csvWriteRecord (r : YPBankRecord) : List Nat :=
  natDecimal r.id ++ [44] ++ r.transaction_type.asStr ++ [44] ++
    natDecimal r.from_user_id ++ [44] ++ natDecimal r.to_user_id ++ [44] ++
    intDecimal r.amount ++ [44] ++ natDecimal r.ts ++ [44] ++
    r.status.asStr ++ [44] ++ r.description ++ [10]

/-- `TARGET_HEADER` (csv_format.rs lines 10-11). -/
def TARGET_HEADER : List Nat :=
  asciiBytes "TX_ID,TX_TYPE,FROM_USER_ID,TO_USER_ID,AMOUNT,TIMESTAMP,STATUS,DESCRIPTION\n"

/-- `CsvParser::pre_read` (csv_format.rs lines 124-134). -/
def csvPreRead (input : List Nat) : Except ParseError (List Nat) :=
  let p := readLine input
  if p.1 = TARGET_HEADER then .ok p.2 else .error (.invalidCsvHeader p.1)

/-! ## Labeled-text codec (src/parser/src/txt_format.rs) -/

/-- `str::split` on a single byte: splits at every occurrence, keeping
empty parts (the result always has `count + 1` parts). -/
def splitOnByte (d : Nat) : List Nat → List (List Nat)
  | [] => [[]]
  | b :: bs =>
    if b = d then [] :: splitOnByte d bs
    else
      match splitOnByte d bs with
      | [] => [[b]]
      | t :: ts => (b :: t) :: ts

/-- The eight field names (`YPBankTxtRecordParser::FIELDS`). -/
def txtFields : List (List Nat) :=
  [asciiBytes "TX_ID", asciiBytes "TX_TYPE", asciiBytes "FROM_USER_ID",
   asciiBytes "TO_USER_ID", asciiBytes "AMOUNT", asciiBytes "TIMESTAMP",
   asciiBytes "STATUS", asciiBytes "DESCRIPTION"]

/-- `YPBankTxtRecordParser::parse_raw_line` (txt_format.rs lines 95-102):
split the line on the colon byte; exactly two parts are required, which are
then trimmed. -/
def txtParseRawLine (line : List Nat) : Except ParseError (List Nat × List Nat) :=
  match splitOnByte 58 line with
  | [a, b] => .ok (trimAscii a, trimAscii b)
  | _ => .error (.invalidRow line)

/-- The message of the `InconsistentRecord` raised at end of stream
mid-record (txt_format.rs line 44). -/
def eofWhileParsingMsg : List Nat := asciiBytes "unexpected end of file while parsing"

/-- The message of the `InconsistentRecord` raised at a blank line
mid-record (txt_format.rs line 58). -/
def newLineWhileParsingMsg : List Nat := asciiBytes "unexpected new line while parsing"

/-- The key/value accumulator, modelling `HashMap<String, String>` by
prepending on insert and taking the most recent binding on lookup. -/
def mapInsert (k v : List Nat) (m : List (List Nat × List Nat)) :
    List (List Nat × List Nat) := (k, v) :: m

/-- `HashMap::get`. -/
def mapGet (k : List Nat) (m : List (List Nat × List Nat)) : Option (List Nat) :=
  (m.find? (fun p => p.1 = k)).map (·.2)

/-- The loop body of `YPBankTxtRecordParser::parse_raw_values`
(txt_format.rs lines 28-68), with explicit accumulator `m`, field counter
`count` and a fuel bound on the number of iterations (each iteration
consumes at least one byte, so any fuel above the input length is
sufficient; `txtParseRawValues` supplies one). -/
def txtParseRawValuesGo :
    Nat → List (List Nat × List Nat) → Nat → List Nat →
    Except ParseError (Option (List (List Nat × List Nat)) × List Nat)
  | 0, m, _, input => .ok (some m, input)
  | fuel + 1, m, count, input =>
    if 8 ≤ count then .ok (some m, input)
    else
      let p := readLine input
      if p.1.length = 0 then
        if count = 0 then .ok (none, p.2)
        else .error (.inconsistentRecord eofWhileParsingMsg)
      else if p.1.head? = some 35 then txtParseRawValuesGo fuel m count p.2
      else if p.1 = [10] then
        if count = 0 then txtParseRawValuesGo fuel m count p.2
        else .error (.inconsistentRecord newLineWhileParsingMsg)
      else
        match txtParseRawLine p.1 with
        | .error e => .error e
        | .ok (k, v) => txtParseRawValuesGo fuel (mapInsert k v m) (count + 1) p.2

/-- `YPBankTxtRecordParser::parse_raw_values` (txt_format.rs lines 28-68). -/
def txtParseRawValues (input : List Nat) :
    Except ParseError (Option (List (List Nat × List Nat)) × List Nat) :=
  txtParseRawValuesGo (input.length + 1) [] 0 input

/-- `YPBankTxtRecordParser::from_raw_values` (txt_format.rs lines 70-93):
look up the eight fields in order (first missing one is `FieldNotFound`),
then the shared record construction. -/
def txtFromRawValues (m : List (List Nat × List Nat)) : Except ParseError YPBankRecord := do
  let v0 ← match mapGet (asciiBytes "TX_ID") m with
    | none => Except.error (ParseError.fieldNotFound (asciiBytes "TX_ID"))
    | some v => Except.ok v
  let v1 ← match mapGet (asciiBytes "TX_TYPE") m with
    | none => Except.error (ParseError.fieldNotFound (asciiBytes "TX_TYPE"))
    | some v => Except.ok v
  let v2 ← match mapGet (asciiBytes "FROM_USER_ID") m with
    | none => Except.error (ParseError.fieldNotFound (asciiBytes "FROM_USER_ID"))
    | some v => Except.ok v
  let v3 ← match mapGet (asciiBytes "TO_USER_ID") m with
    | none => Except.error (ParseError.fieldNotFound (asciiBytes "TO_USER_ID"))
    | some v => Except.ok v
  let v4 ← match mapGet (asciiBytes "AMOUNT") m with
    | none => Except.error (ParseError.fieldNotFound (asciiBytes "AMOUNT"))
    | some v => Except.ok v
  let v5 ← match mapGet (asciiBytes "TIMESTAMP") m with
    | none => Except.error (ParseError.fieldNotFound (asciiBytes "TIMESTAMP"))
    | some v => Except.ok v
  let v6 ← match mapGet (asciiBytes "STATUS") m with
    | none => Except.error (ParseError.fieldNotFound (asciiBytes "STATUS"))
    | some v => Except.ok v
  let v7 ← match mapGet (asciiBytes "DESCRIPTION") m with
    | none => Except.error (ParseError.fieldNotFound (asciiBytes "DESCRIPTION"))
    | some v => Except.ok v
  recordFromEight v0 v1 v2 v3 v4 v5 v6 v7

/-- `YPBankTxtRecordParser::from_read` (txt_format.rs lines 106-116). -/
def txtRecordFromRead (input : List Nat) :
    Except ParseError (Option YPBankRecord × List Nat) :=
  match txtParseRawValues input with
  | .error e => .error e
  | .ok (none, rest) => .ok (none, rest)
  | .ok (some m, rest) =>
    match txtFromRawValues m with
    | .error e => .error e
    | .ok r => .ok (some r, rest)

/-- The eight raw field values of a record in canonical order
(`record_values` in `YPBankTxtRecordParser::write_to`). -/
def recordValues (r : YPBankRecord) : List (List Nat) :=
  [natDecimal r.id, r.transaction_type.asStr, natDecimal r.from_user_id,
   natDecimal r.to_user_id, intDecimal r.amount, natDecimal r.ts,
   r.status.asStr, r.description]

/-- One `KEY: VALUE` labeled-text line (without its terminating newline). -/
def txtLine (k v : List Nat) : List Nat := k ++ [58, 32] ++ v

/-- `YPBankTxtRecordParser::write_to` (txt_format.rs lines 118-141): the
eight `KEY: VALUE` lines and a trailing element `"\n"`, joined with
newlines - i.e. each line newline-terminated, then one blank line. -/
def txtWriteRecord (r : YPBankRecord) : List Nat :=
  (((txtFields.zip (recordValues r)).map (fun p => txtLine p.1 p.2 ++ [10])).flatten) ++ [10]

/-! ## Binary codec (src/parser/src/bin_format.rs) -/

/-- `YPBankBinRecordParser::MAGIC`. -/
def MAGIC : List Nat := [0x59, 0x50, 0x42, 0x4E]

/-- Uppercase hex digit byte of a value below 16. -/
def hexDigit (n : Nat) : Nat := if n < 10 then 48 + n else 55 + n

/-- `format!("{:02X}", b)` for one byte. -/
def byteHex (b : Nat) : List Nat := [hexDigit (b / 16 % 16), hexDigit (b % 16)]

/-- The hex dump carried by `InvalidMagic` (bytes joined with spaces). -/
def magicHex (bs : List Nat) : List Nat := (List.intersperse [32] (bs.map byteHex)).flatten

/-- The display text of the `std::io::Error` produced by a short
`read_exact`, wrapped into `ParseError::IOError` by the `From` impl
(error.rs lines 58-62). -/
def ioEofMsg : List Nat := asciiBytes "failed to fill whole buffer"

/-- `YPBankBinRecordParser::validate_magic` (bin_format.rs lines 14-34). -/
def validateMagic (input : List Nat) : Except ParseError (List Nat) :=
  match readExact 4 input with
  | none => .error .unexpectedEOF
  | some (m, rest) =>
    if m = MAGIC then .ok rest else .error (.invalidMagic (magicHex m))

/-- `read_u8_from_bytes` (common.rs lines 199-212): a short read becomes
`IOError` via the `From<std::io::Error>` conversion. -/
def readU8 (input : List Nat) : Except ParseError (Nat × List Nat) :=
  match readExact 1 input with
  | none => .error (.ioError ioEofMsg)
  | some (bs, rest) => .ok (beVal bs, rest)

/-- `read_u32_from_bytes` (common.rs lines 199-212). -/
def readU32 (input : List Nat) : Except ParseError (Nat × List Nat) :=
  match readExact 4 input with
  | none => .error (.ioError ioEofMsg)
  | some (bs, rest) => .ok (beVal bs, rest)

/-- `read_u64_from_bytes` (common.rs lines 199-212). -/
def readU64 (input : List Nat) : Except ParseError (Nat × List Nat) :=
  match readExact 8 input with
  | none => .error (.ioError ioEofMsg)
  | some (bs, rest) => .ok (beVal bs, rest)

/-- `read_i64_from_bytes` (common.rs lines 199-212): big-endian two's
complement. -/
def readI64 (input : List Nat) : Except ParseError (Int × List Nat) :=
  match readExact 8 input with
  | none => .error (.ioError ioEofMsg)
  | some (bs, rest) =>
    .ok (if beVal bs < 2 ^ 63 then (beVal bs : Int) else (beVal bs : Int) - 2 ^ 64, rest)

/-- Strict UTF-8 validity of a byte string (RFC 3629 table), as enforced by
`String::from_utf8`. -/
def validUtf8 : List Nat → Bool
  | [] => true
  | b0 :: bs =>
    if b0 < 0x80 then validUtf8 bs
    else if 0xC2 ≤ b0 ∧ b0 ≤ 0xDF then
      match bs with
      | b1 :: bs1 => (0x80 ≤ b1 ∧ b1 ≤ 0xBF : Bool) && validUtf8 bs1
      | [] => false
    else if 0xE0 ≤ b0 ∧ b0 ≤ 0xEF then
      match bs with
      | b1 :: b2 :: bs2 =>
        (decide (0x80 ≤ b2 ∧ b2 ≤ 0xBF)) &&
        (if b0 = 0xE0 then decide (0xA0 ≤ b1 ∧ b1 ≤ 0xBF)
         else if b0 = 0xED then decide (0x80 ≤ b1 ∧ b1 ≤ 0x9F)
         else decide (0x80 ≤ b1 ∧ b1 ≤ 0xBF)) && validUtf8 bs2
      | _ => false
    else if 0xF0 ≤ b0 ∧ b0 ≤ 0xF4 then
      match bs with
      | b1 :: b2 :: b3 :: bs3 =>
        (decide (0x80 ≤ b2 ∧ b2 ≤ 0xBF)) && (decide (0x80 ≤ b3 ∧ b3 ≤ 0xBF)) &&
        (if b0 = 0xF0 then decide (0x90 ≤ b1 ∧ b1 ≤ 0xBF)
         else if b0 = 0xF4 then decide (0x80 ≤ b1 ∧ b1 ≤ 0x8F)
         else decide (0x80 ≤ b1 ∧ b1 ≤ 0xBF)) && validUtf8 bs3
      | _ => false
    else false

/-- Stand-in for the display text of the `FromUtf8Error` wrapped into
`InvalidRawValue` (its exact index arithmetic is not load-bearing for any
claim). -/
def utf8ErrMsg : List Nat := asciiBytes "invalid utf-8 sequence"

/-- `YPBankBinRecordParser::read_description_from_bytes` (bin_format.rs
lines 62-69): a length prefix, that many raw bytes, then the
`String::from_utf8` check (which keeps the bytes verbatim on success). -/
def readDescription (input : List Nat) : Except ParseError (List Nat × List Nat) :=
  match readU32 input with
  | .error e => .error e
  | .ok (len, r1) =>
    match readExact len r1 with
    | none => .error (.ioError ioEofMsg)
    | some (bs, rest) =>
      if validUtf8 bs then .ok (bs, rest) else .error (.invalidRawValue utf8ErrMsg)

/-- `YPBankBinRecordParser::parse_record` (bin_format.rs lines 40-60). -/
def binParseRecord (input : List Nat) : Except ParseError (YPBankRecord × List Nat) := do
  let (id, i1) ← readU64 input
  let (tb, i2) ← readU8 i1
  let tt ← transactionTypeFromInt tb
  let (f0, i3) ← readU64 i2
  let fu ← validate_from_user_id f0 tt
  let (t0, i4) ← readU64 i3
  let tu ← validate_to_user_id t0 tt
  let (am, i5) ← readI64 i4
  let (ts, i6) ← readU64 i5
  let (sb, i7) ← readU8 i6
  let st ← transactionStatusFromInt sb
  let (d, i8) ← readDescription i7
  pure (⟨id, tt, fu, tu, am, ts, st, d⟩, i8)

/-- `YPBankBinRecordParser::from_read` (bin_format.rs lines 77-93): an
`UnexpectedEOF` from the magic check - any stream shorter than 4 bytes - is
converted to the clean no-record outcome; a record size of zero is also a
terminator. -/
def binRecordFromRead (input : List Nat) :
    Except ParseError (Option YPBankRecord × List Nat) :=
  match validateMagic input with
  | .error e => if e = .unexpectedEOF then .ok (none, input) else .error e
  | .ok r1 =>
    match readU32 r1 with
    | .error e => .error e
    | .ok (size, r2) =>
      if size = 0 then .ok (none, r2)
      else
        match binParseRecord r2 with
        | .error e => .error e
        | .ok (r, r3) => .ok (some r, r3)

/-- `YPBankBinRecordParser::get_record_size` (bin_format.rs lines 71-73):
`46 + description.len()` as a `u32`. -/
def getRecordSize (d : List Nat) : Nat := (46 + d.length) % 2 ^ 32

/-- `YPBankBinRecordParser::write_to` (bin_format.rs lines 95-114). -/
def binWriteRecord (r : YPBankRecord) : List Nat :=
  MAGIC ++ bytesBE 4 (getRecordSize r.description) ++
    bytesBE 8 r.id ++ [r.transaction_type.asInt] ++
    bytesBE 8 r.from_user_id ++ bytesBE 8 r.to_user_id ++
    bytesBE 8 (r.amount % 2 ^ 64).toNat ++ bytesBE 8 r.ts ++
    [r.status.asInt] ++ bytesBE 4 (r.description.length % 2 ^ 32) ++
    r.description

/-! ## Generic sequence codec and dispatcher (src/parser/src/parser.rs,
src/parser/src/lib.rs) -/

/-- The record loop of `Parser::from_read` (parser.rs lines 16-22), generic
over the per-record codec; `fuel` bounds the number of iterations (every
parsed record consumes at least one byte, so callers pass the input length
plus one). -/
def readLoop (step : List Nat → Except ParseError (Option YPBankRecord × List Nat)) :
    Nat → List Nat → Except ParseError (List YPBankRecord)
  | 0, _ => .ok []
  | fuel + 1, input =>
    match step input with
    | .error e => .error e
    | .ok (none, _) => .ok []
    | .ok (some r, rest) =>
      match readLoop step fuel rest with
      | .error e => .error e
      | .ok rs => .ok (r :: rs)

/-- `Parser::<YPBankCsvRecordParser>::from_read` for `CsvParser`: the header
prologue, then the record loop. -/
def csvReadAll (input : List Nat) : Except ParseError (List YPBankRecord) :=
  match csvPreRead input with
  | .error e => .error e
  | .ok rest => readLoop csvRecordFromRead (rest.length + 1) rest

/-- `Parser::<YPBankTxtRecordParser>::from_read` for `TxtParser` (no
prologue). -/
def txtReadAll (input : List Nat) : Except ParseError (List YPBankRecord) :=
  readLoop txtRecordFromRead (input.length + 1) input

/-- `Parser::<YPBankBinRecordParser>::from_read` for `BinParser` (no
prologue). -/
def binReadAll (input : List Nat) : Except ParseError (List YPBankRecord) :=
  readLoop binRecordFromRead (input.length + 1) input

/-- `CommonParser::from_read` (lib.rs): dispatch on the format. -/
def readAll : Format → List Nat → Except ParseError (List YPBankRecord)
  | .csv => csvReadAll
  | .txt => txtReadAll
  | .bin => binReadAll

/-- `CommonParser::write_to` (lib.rs): the optional prologue
(`CsvParser::pre_write`) then each record in order. -/
def writeAll : Format → List YPBankRecord → List Nat
  | .csv, rs => TARGET_HEADER ++ (rs.map csvWriteRecord).flatten
  | .txt, rs => (rs.map txtWriteRecord).flatten
  | .bin, rs => (rs.map binWriteRecord).flatten

/-! ## Predicates used by the theorems -/

/-- A well-formed in-memory record: every unsigned field fits in `u64`, the
amount fits in `i64`, and the zero-id/type invariant of §3 of the spec
holds (the "valid record" premise of the round-trip claims). -/
def WfRecord (r : YPBankRecord) : Prop :=
  r.id < 2 ^ 64 ∧ r.from_user_id < 2 ^ 64 ∧ r.to_user_id < 2 ^ 64 ∧ r.ts < 2 ^ 64 ∧
    -(2 ^ 63 : Int) ≤ r.amount ∧ r.amount < 2 ^ 63 ∧
    (r.from_user_id = 0 → r.transaction_type = .deposit) ∧
    (r.to_user_id = 0 → r.transaction_type = .withdrawal)

/-- Descriptions the delimited-text codec can round-trip: nonempty (the
tokenizer drops a trailing empty field), printable ASCII (no newline, no
carriage return, nothing `str::trim` can strip except a space), not ending
in a space, and with every delimiter occurrence inside a quoted span. -/
def DescOkCsv (d : List Nat) : Prop :=
  d ≠ [] ∧ (∀ b ∈ d, 32 ≤ b ∧ b ≤ 126) ∧ d.getLast? ≠ some 32 ∧
    noUnquotedSep false d = true

/-- Descriptions the labeled-text codec can round-trip: printable ASCII
without the colon byte, with no leading or trailing space (the value is
trimmed on read). -/
def DescOkTxt (d : List Nat) : Prop :=
  (∀ b ∈ d, 32 ≤ b ∧ b ≤ 126 ∧ b ≠ 58) ∧ d.head? ≠ some 32 ∧ d.getLast? ≠ some 32

/-- Descriptions the binary codec can round-trip: any valid UTF-8 byte
string whose frame size fits in the `u32` length fields. -/
def DescOkBin (d : List Nat) : Prop := validUtf8 d = true ∧ 46 + d.length < 2 ^ 32

/-- Per-format description side condition for the round-trip theorem. -/
def DescOk : Format → List Nat → Prop
  | .csv => DescOkCsv
  | .txt => DescOkTxt
  | .bin => DescOkBin

/-- A labeled-text line that `parse_raw_values` counts as one field: a
single newline-terminated line, not a comment, not blank, with exactly one
colon. -/
def FieldLineOk (l : List Nat) : Prop :=
  (∃ body, l = body ++ [10] ∧ 10 ∉ body ∧ body ≠ []) ∧
    l.head? ≠ some 35 ∧ l.count 58 = 1

/-- The labeled-text rendering of a list of key/value pairs, one
newline-terminated `KEY: VALUE` line each. -/
def txtRenderLines (ps : List (List Nat × List Nat)) : List Nat :=
  (ps.map (fun p => txtLine p.1 p.2 ++ [10])).flatten

/-- Quote-toggle state after scanning a byte string from state `q`. -/
def quoteState (q : Bool) (cs : List Nat) : Bool :=
  cs.foldl (fun s b => if b = 34 then !s else s) q

/-- Prepend pending field bytes (in reverse) onto the first field of a
split. -/
def consHeadField (acc : List Nat) : List (List Nat) → List (List Nat)
  | [] => [acc.reverse]
  | f :: fs => (acc.reverse ++ f) :: fs

deriving instance DecidableEq for Except

/-! ## Byte-stream lemmas -/

theorem readLine_append_self (bs : List Nat) : (readLine bs).1 ++ (readLine bs).2 = bs := by
  induction bs with
  | nil => rfl
  | cons b bs ih =>
    by_cases h : b = 10
    · simp [readLine, h]
    · simp [readLine, h, ih]

theorem readLine_ne_nil {bs : List Nat} (h : bs ≠ []) : (readLine bs).1 ≠ [] := by
  cases bs with
  | nil => exact absurd rfl h
  | cons b bs => by_cases hb : b = 10 <;> simp [readLine, hb]

theorem readLine_line (body rest : List Nat) (h : 10 ∉ body) :
    readLine (body ++ 10 :: rest) = (body ++ [10], rest) := by
  induction body with
  | nil => simp [readLine]
  | cons b bs ih =>
    have hb : b ≠ 10 := fun e => h (by simp [e])
    have h' : 10 ∉ bs := fun m => h (List.mem_cons_of_mem _ m)
    simp [readLine, hb, ih h']

theorem readLine_no_newline (bs : List Nat) (h : 10 ∉ bs) : readLine bs = (bs, []) := by
  induction bs with
  | nil => rfl
  | cons b bs ih =>
    have hb : b ≠ 10 := fun e => h (by simp [e])
    have h' : 10 ∉ bs := fun m => h (List.mem_cons_of_mem _ m)
    simp [readLine, hb, ih h']

theorem trimAscii_nil : trimAscii [] = [] := rfl

theorem trimRight_of_getLast {l : List Nat} {y : Nat}
    (hl : l.getLast? = some y) (hy : isWsByte y = false) :
    (l.reverse.dropWhile isWsByte).reverse = l := by
  have hrev : l.reverse.head? = some y := by rw [List.head?_reverse]; exact hl
  obtain ⟨z, zs, hz⟩ : ∃ z zs, l.reverse = z :: zs := by
    cases hr : l.reverse with
    | nil => rw [hr] at hrev; simp at hrev
    | cons z zs => exact ⟨z, zs, rfl⟩
  have hzw : isWsByte z = false := by rw [show z = y from by rw [hz] at hrev; simpa using hrev]; exact hy
  rw [hz, List.dropWhile_cons, hzw]
  simp only [Bool.false_eq_true, if_false]
  rw [← hz, List.reverse_reverse]

theorem trimAscii_line (body : List Nat) (x y : Nat)
    (hh : body.head? = some x) (hx : isWsByte x = false)
    (hl : body.getLast? = some y) (hy : isWsByte y = false) :
    trimAscii (body ++ [10]) = body := by
  obtain ⟨b, bs, rfl⟩ : ∃ b bs, body = b :: bs := by
    cases body with
    | nil => simp at hh
    | cons b bs => exact ⟨b, bs, rfl⟩
  have hb : b = x := by simpa using hh
  subst hb
  unfold trimAscii
  rw [show (b :: bs) ++ [10] = b :: (bs ++ [10]) from rfl]
  rw [List.dropWhile_cons, hx]
  simp only [Bool.false_eq_true, if_false]
  rw [show b :: (bs ++ [10]) = (b :: bs) ++ [10] from rfl, List.reverse_append]
  simp only [List.reverse_singleton, List.singleton_append]
  rw [List.dropWhile_cons]
  simp only [show isWsByte 10 = true from rfl, if_true]
  exact trimRight_of_getLast hl hy

theorem trimAscii_value (v : List Nat)
    (hh : ∀ x, v.head? = some x → isWsByte x = false)
    (hl : ∀ y, v.getLast? = some y → isWsByte y = false) :
    trimAscii (32 :: (v ++ [10])) = v := by
  unfold trimAscii
  rw [List.dropWhile_cons]
  simp only [show isWsByte 32 = true from rfl, if_true]
  cases v with
  | nil => rfl
  | cons b bs =>
    have hb := hh b (by simp)
    have hzl : ∃ z, (b :: bs).getLast? = some z := by
      cases hr : (b :: bs).getLast? with
      | none => simp at hr
      | some z => exact ⟨z, rfl⟩
    obtain ⟨z, hz⟩ := hzl
    have hzw := hl z hz
    rw [show b :: bs ++ [10] = b :: (bs ++ [10]) from rfl, List.dropWhile_cons, hb]
    simp only [Bool.false_eq_true, if_false]
    rw [show b :: (bs ++ [10]) = (b :: bs) ++ [10] from rfl, List.reverse_append]
    simp only [List.reverse_singleton, List.singleton_append]
    rw [List.dropWhile_cons]
    simp only [show isWsByte 10 = true from rfl, if_true]
    exact trimRight_of_getLast hz hzw

/-! ## Tokenizer lemmas -/

theorem sepCollect_cons (bs : List Nat) (h : bs ≠ []) :
    sepCollect bs = sepNext false [] bs := by
  cases bs with
  | nil => exact absurd rfl h
  | cons b bs => rfl

theorem sepNext_step (q : Bool) (acc : List Nat) (b : Nat) (bs : List Nat)
    (h : ¬(¬q = true ∧ b = 44)) :
    sepNext q acc (b :: bs) = sepNext (if b = 34 then !q else q) (b :: acc) bs := by
  conv_lhs => unfold sepNext
  rw [if_neg h]

theorem sepNext_sep_nil (acc : List Nat) : sepNext false acc [44] = [acc.reverse] := rfl

theorem sepNext_sep_cons (acc : List Nat) (x : Nat) (xs : List Nat) :
    sepNext false acc (44 :: x :: xs) = acc.reverse :: sepNext false [] (x :: xs) := rfl

theorem sepNext_protected (cs : List Nat) : ∀ q acc, noUnquotedSep q cs = true →
    sepNext q acc cs = [acc.reverse ++ cs] := by
  induction cs with
  | nil => intro q acc _; simp [sepNext]
  | cons b bs ih =>
    intro q acc h
    unfold noUnquotedSep at h
    by_cases hs : b = 44 ∧ ¬q
    · rw [if_pos hs] at h; exact absurd h (by simp)
    · rw [if_neg hs] at h
      rw [sepNext_step q acc b bs (by tauto)]
      rw [ih _ _ h]
      simp

theorem sepNext_split (a : List Nat) : ∀ acc b, 44 ∉ a → 34 ∉ a → b ≠ [] →
    sepNext false acc (a ++ 44 :: b) = (acc.reverse ++ a) :: sepNext false [] b := by
  induction a with
  | nil =>
    intro acc b _ _ hb
    show sepNext false acc (44 :: b) = _
    cases b with
    | nil => exact absurd rfl hb
    | cons x xs => rw [sepNext_sep_cons]; simp
  | cons c a' ih =>
    intro acc b h44 h34 hb
    have hc44 : c ≠ 44 := fun e => h44 (by simp [e])
    have hc34 : c ≠ 34 := fun e => h34 (by simp [e])
    have h44' : 44 ∉ a' := fun m => h44 (List.mem_cons_of_mem _ m)
    have h34' : 34 ∉ a' := fun m => h34 (List.mem_cons_of_mem _ m)
    show sepNext false acc (c :: (a' ++ 44 :: b)) = _
    rw [sepNext_step false acc c _ (by tauto)]
    rw [if_neg hc34]
    rw [ih (c :: acc) b h44' h34' hb]
    simp

/-- C4: the delimited-text tokenizer splits on the delimiter only outside a
quoted span (toggled by every quote byte, with quote bytes kept in the
field content and the toggle state persisting across the line), and the
four reference examples behave as stated: `val1,val 2, val 3 `,
`val1,val 2, " val,,,3 " `, the empty line, and `val1,,val3`. -/
theorem csv_tokenizer_spec :
    sepCollect (asciiBytes "val1,val 2, val 3 ") =
      [asciiBytes "val1", asciiBytes "val 2", asciiBytes " val 3 "] ∧
    sepCollect (asciiBytes "val1,val 2, \" val,,,3 \" ") =
      [asciiBytes "val1", asciiBytes "val 2", asciiBytes " \" val,,,3 \" "] ∧
    sepCollect (asciiBytes "") = [] ∧
    sepCollect (asciiBytes "val1,,val3") =
      [asciiBytes "val1", asciiBytes "", asciiBytes "val3"] ∧
    (∀ a b : List Nat, 44 ∉ a → 34 ∉ a → b ≠ [] →
      sepCollect (a ++ 44 :: b) = a :: sepCollect b) ∧
    (∀ cs : List Nat, cs ≠ [] → noUnquotedSep false cs = true → sepCollect cs = [cs]) := by
  refine ⟨by decide, by decide, by decide, by decide, ?_, ?_⟩
  · intro a b h44 h34 hb
    have hne : a ++ 44 :: b ≠ [] := by simp
    rw [sepCollect_cons _ hne, sepNext_split a [] b h44 h34 hb, sepCollect_cons b hb]
    simp
  · intro cs hne h
    rw [sepCollect_cons cs hne, sepNext_protected cs false [] h]
    simp

/-- C4 witness: the general conjuncts applied at concrete inputs. -/
theorem csv_tokenizer_spec_witness :
    sepCollect (asciiBytes "ab,\"x,y\"") = [asciiBytes "ab", asciiBytes "\"x,y\""] := by
  have h := csv_tokenizer_spec.2.2.2.2
  have h1 := h.1 (asciiBytes "ab") (asciiBytes "\"x,y\"") (by decide) (by decide) (by decide)
  have h2 := h.2 (asciiBytes "\"x,y\"") (by decide) (by decide)
  rw [show asciiBytes "ab,\"x,y\"" = asciiBytes "ab" ++ 44 :: asciiBytes "\"x,y\"" from by decide]
  rw [h1, h2]

/-! ## C9: trailing delimiter -/

theorem specSplitFields_ne_nil (cs : List Nat) (q : Bool) : specSplitFields q cs ≠ [] := by
  cases cs with
  | nil => simp [specSplitFields]
  | cons b bs =>
    unfold specSplitFields
    by_cases hs : b = 44 ∧ ¬q
    · rw [if_pos hs]; simp
    · rw [if_neg hs]
      cases h : specSplitFields (if b = 34 then !q else q) bs <;> simp

theorem consHeadField_nil_of_ne (fs : List (List Nat)) (h : fs ≠ []) :
    consHeadField [] fs = fs := by
  cases fs with
  | nil => exact absurd rfl h
  | cons f fs => simp [consHeadField]

theorem specSplitFields_cons_sep (bs : List Nat) :
    specSplitFields false (44 :: bs) = [] :: specSplitFields false bs := rfl

theorem specSplitFields_cons_other (q : Bool) (b : Nat) (bs : List Nat)
    (f : List Nat) (fs : List (List Nat))
    (h : ¬(b = 44 ∧ ¬q = true))
    (hf : specSplitFields (if b = 34 then !q else q) bs = f :: fs) :
    specSplitFields q (b :: bs) = (b :: f) :: fs := by
  conv_lhs => unfold specSplitFields
  rw [if_neg h, hf]

theorem sepNext_trailing_sep (cs : List Nat) : ∀ q acc, quoteState q cs = false →
    sepNext q acc (cs ++ [44]) = consHeadField acc (specSplitFields q cs) := by
  induction cs with
  | nil =>
    intro q acc h
    have hq : q = false := by simpa [quoteState] using h
    subst hq
    show sepNext false acc [44] = _
    rw [sepNext_sep_nil]
    simp [specSplitFields, consHeadField]
  | cons b bs ih =>
    intro q acc h
    have hstate : quoteState (if b = 34 then !q else q) bs = false := by
      simpa [quoteState] using h
    by_cases hs : b = 44 ∧ ¬q
    · obtain ⟨hb44, hq⟩ := hs
      have hqf : q = false := by simpa using hq
      subst hqf
      subst hb44
      show sepNext false acc (44 :: (bs ++ [44])) = _
      rw [specSplitFields_cons_sep]
      obtain ⟨x, xs, hx⟩ : ∃ x xs, bs ++ [44] = x :: xs := by
        cases hc : bs ++ [44] with
        | nil => simp at hc
        | cons x xs => exact ⟨x, xs, rfl⟩
      rw [hx, sepNext_sep_cons, ← hx]
      have hst' : quoteState false bs = false := by simpa using hstate
      rw [ih false [] hst']
      rw [consHeadField_nil_of_ne _ (specSplitFields_ne_nil bs false)]
      simp [consHeadField]
    · show sepNext q acc (b :: (bs ++ [44])) = _
      rw [sepNext_step q acc b _ (by tauto)]
      rw [ih _ (b :: acc) hstate]
      obtain ⟨f, fs, hf⟩ : ∃ f fs, specSplitFields (if b = 34 then !q else q) bs = f :: fs := by
        cases hc : specSplitFields (if b = 34 then !q else q) bs with
        | nil => exact absurd hc (specSplitFields_ne_nil bs _)
        | cons f fs => exact ⟨f, fs, rfl⟩
      rw [specSplitFields_cons_other q b bs f fs (by tauto) hf, hf]
      simp [consHeadField]

/-! ## Colon-splitter lemmas and C5 -/

theorem splitOnByte_ne_nil (d : Nat) (xs : List Nat) : splitOnByte d xs ≠ [] := by
  cases xs with
  | nil => simp [splitOnByte]
  | cons b bs =>
    unfold splitOnByte
    by_cases hb : b = d
    · rw [if_pos hb]; simp
    · rw [if_neg hb]
      cases h : splitOnByte d bs <;> simp

theorem splitOnByte_cons_sep (d : Nat) (bs : List Nat) :
    splitOnByte d (d :: bs) = [] :: splitOnByte d bs := by
  conv_lhs => unfold splitOnByte
  rw [if_pos rfl]

theorem splitOnByte_cons_other (d b : Nat) (bs f : List Nat) (fs : List (List Nat))
    (hb : b ≠ d) (hf : splitOnByte d bs = f :: fs) :
    splitOnByte d (b :: bs) = (b :: f) :: fs := by
  conv_lhs => unfold splitOnByte
  rw [if_neg hb, hf]

theorem splitOnByte_no (d : Nat) (xs : List Nat) (h : d ∉ xs) : splitOnByte d xs = [xs] := by
  induction xs with
  | nil => rfl
  | cons b bs ih =>
    have hb : b ≠ d := fun e => h (by simp [e])
    have h' : d ∉ bs := fun m => h (List.mem_cons_of_mem _ m)
    rw [splitOnByte_cons_other d b bs bs [] hb (ih h')]

theorem splitOnByte_append (d : Nat) (a b : List Nat) (h : d ∉ a) :
    splitOnByte d (a ++ d :: b) = a :: splitOnByte d b := by
  induction a with
  | nil => rw [List.nil_append, splitOnByte_cons_sep]
  | cons c a' ih =>
    have hc : c ≠ d := fun e => h (by simp [e])
    have h' : d ∉ a' := fun m => h (List.mem_cons_of_mem _ m)
    rw [show (c :: a') ++ d :: b = c :: (a' ++ d :: b) from rfl]
    rw [splitOnByte_cons_other d c _ a' (splitOnByte d b) hc (ih h')]

theorem splitOnByte_length (d : Nat) (xs : List Nat) :
    (splitOnByte d xs).length = xs.count d + 1 := by
  induction xs with
  | nil => rfl
  | cons b bs ih =>
    by_cases hb : b = d
    · subst hb
      rw [splitOnByte_cons_sep]
      simp only [List.length_cons, List.count_cons_self, ih]
    · obtain ⟨f, fs, hf⟩ : ∃ f fs, splitOnByte d bs = f :: fs := by
        cases hc : splitOnByte d bs with
        | nil => exact absurd hc (splitOnByte_ne_nil d bs)
        | cons f fs => exact ⟨f, fs, rfl⟩
      rw [splitOnByte_cons_other d b bs f fs hb hf]
      rw [hf] at ih
      simp only [List.length_cons] at ih ⊢
      rw [List.count_cons_of_ne (Ne.symm hb)]
      omega

/-- C5 counterexample: a labeled-text line whose value part contains a
colon is rejected with `InvalidRow`; it is not split at the first colon. -/
theorem txt_parse_raw_line_colon_value_rejected :
    txtParseRawLine (asciiBytes "DESCRIPTION: a:b\n") =
      .error (.invalidRow (asciiBytes "DESCRIPTION: a:b\n")) ∧
    txtParseRawLine (asciiBytes "DESCRIPTION: a:b\n") ≠
      .ok (asciiBytes "DESCRIPTION", asciiBytes "a:b") := by
  constructor
  · decide
  · decide

/-- C5 (amended): the labeled-text reader splits a line on the colon byte
only when the line contains exactly one colon (the split yields the two
parts, trimmed of surrounding whitespace); a line with zero colons, or with
a value part itself containing a colon - more than one colon in all - is
rejected with `InvalidRow`. -/
theorem txt_parse_raw_line_spec :
    (∀ a b : List Nat, 58 ∉ a → 58 ∉ b →
      txtParseRawLine (a ++ 58 :: b) = .ok (trimAscii a, trimAscii b)) ∧
    (∀ line : List Nat, line.count 58 ≠ 1 →
      txtParseRawLine line = .error (.invalidRow line)) := by
  constructor
  · intro a b ha hb
    unfold txtParseRawLine
    rw [splitOnByte_append 58 a b ha, splitOnByte_no 58 b hb]
  · intro line h
    have hlen := splitOnByte_length 58 line
    unfold txtParseRawLine
    rcases h2 : splitOnByte 58 line with _ | ⟨a, _ | ⟨b, _ | ⟨c, rest⟩⟩⟩
    · rfl
    · rfl
    · rw [h2] at hlen; simp at hlen; omega
    · rfl

/-- C5 witness: the amended split applied at a concrete line. -/
theorem txt_parse_raw_line_spec_witness :
    txtParseRawLine (asciiBytes "TX_ID: 7\n") = .ok (asciiBytes "TX_ID", asciiBytes "7") := by
  have h := txt_parse_raw_line_spec.1 (asciiBytes "TX_ID") (asciiBytes " 7\n") (by decide) (by decide)
  rw [show asciiBytes "TX_ID: 7\n" = asciiBytes "TX_ID" ++ 58 :: asciiBytes " 7\n" from by decide]
  rw [h]
  decide

/-! ## C2: partial magic bytes -/

/-- C2 counterexample: a binary source holding only 2 of the 4 magic bytes
yields the clean no-record outcome from the per-record read, not the
`UnexpectedEOF` error the claim asserts. -/
theorem bin_partial_magic_not_eof_error :
    binRecordFromRead [0x59, 0x50] = .ok (none, [0x59, 0x50]) ∧
    binRecordFromRead [0x59, 0x50] ≠ .error .unexpectedEOF := by
  constructor
  · decide
  · decide

/-- C2 (amended): for every binary source of fewer than 4 bytes - whether
empty or holding a partial magic number - the magic validation itself
reports `UnexpectedEOF`, but the per-record read converts that error into
the clean "no record" end-of-stream outcome. -/
theorem bin_partial_magic_clean_end (bs : List Nat) (h : bs.length < 4) :
    validateMagic bs = .error .unexpectedEOF ∧ binRecordFromRead bs = .ok (none, bs) := by
  have hv : validateMagic bs = .error .unexpectedEOF := by
    unfold validateMagic readExact
    rw [if_neg (by omega)]
  refine ⟨hv, ?_⟩
  unfold binRecordFromRead
  rw [hv]
  simp

/-- C2 witness: the amended statement at the two-byte source. -/
theorem bin_partial_magic_clean_end_witness :
    validateMagic [0x59, 0x50] = .error .unexpectedEOF ∧
    binRecordFromRead [0x59, 0x50] = .ok (none, [0x59, 0x50]) :=
  bin_partial_magic_clean_end [0x59, 0x50] (by decide)

/-! ## C3: user-id validation -/

/-- C3: user-id validation fails with `InvalidUserId(value, type)` exactly
when the from-id is zero with a non-Deposit type (resp. the to-id is zero
with a non-Withdrawal type), and passes the value through unchanged in
every other case. -/
theorem validate_user_id_spec (v : Nat) (t : TransactionType) :
    (validate_from_user_id v t = .error (.invalidUserId (natDecimal v) t) ↔
      v = 0 ∧ t ≠ .deposit) ∧
    ((v = 0 → t = .deposit) → validate_from_user_id v t = .ok v) ∧
    (validate_to_user_id v t = .error (.invalidUserId (natDecimal v) t) ↔
      v = 0 ∧ t ≠ .withdrawal) ∧
    ((v = 0 → t = .withdrawal) → validate_to_user_id v t = .ok v) := by
  unfold validate_from_user_id validate_to_user_id
  refine ⟨?_, ?_, ?_, ?_⟩
  · by_cases h : v = 0 ∧ t ≠ .deposit
    · rw [if_pos h]; simp [h]
    · rw [if_neg h]; simp [h]
  · intro h
    rw [if_neg (by tauto)]
  · by_cases h : v = 0 ∧ t ≠ .withdrawal
    · rw [if_pos h]; simp [h]
    · rw [if_neg h]; simp [h]
  · intro h
    rw [if_neg (by tauto)]

/-- C3 witness: rejection and pass-through at concrete inputs. -/
theorem validate_user_id_spec_witness :
    validate_from_user_id 0 .transfer = .error (.invalidUserId (natDecimal 0) .transfer) ∧
    validate_from_user_id 5 .transfer = .ok 5 ∧
    validate_to_user_id 0 .withdrawal = .ok 0 :=
  ⟨(validate_user_id_spec 0 .transfer).1.mpr (by decide),
   (validate_user_id_spec 5 .transfer).2.1 (by decide),
   (validate_user_id_spec 0 .withdrawal).2.2.2 (by decide)⟩

/-! ## Decimal rendering and parsing round-trip -/

theorem natDigitsRev_digits (fuel : Nat) : ∀ n, ∀ b ∈ natDigitsRev fuel n, 48 ≤ b ∧ b ≤ 57 := by
  induction fuel with
  | zero => intro n b hb; simp [natDigitsRev] at hb
  | succ f ih =>
    intro n b hb
    cases n with
    | zero => simp [natDigitsRev] at hb
    | succ m =>
      rw [natDigitsRev] at hb
      rcases List.mem_cons.mp hb with h | h
      · subst h; omega
      · exact ih _ b h

theorem natDecimal_digits (n : Nat) : ∀ b ∈ natDecimal n, 48 ≤ b ∧ b ≤ 57 := by
  intro b hb
  unfold natDecimal at hb
  by_cases h : n = 0
  · rw [if_pos h] at hb; simp at hb; omega
  · rw [if_neg h] at hb
    exact natDigitsRev_digits 30 n b (List.mem_reverse.mp hb)

theorem natDecimal_ne_nil (n : Nat) : natDecimal n ≠ [] := by
  unfold natDecimal
  by_cases h : n = 0
  · rw [if_pos h]; simp
  · rw [if_neg h]
    cases n with
    | zero => exact absurd rfl h
    | succ m => rw [natDigitsRev]; simp

theorem digitsValAux_cons (acc b : Nat) (bs : List Nat) :
    digitsValAux acc (b :: bs) =
      if 48 ≤ b ∧ b ≤ 57 then digitsValAux (acc * 10 + (b - 48)) bs else none := rfl

theorem digitsValAux_append (xs : List Nat) : ∀ acc (ys : List Nat),
    digitsValAux acc (xs ++ ys) = (digitsValAux acc xs).bind (fun v => digitsValAux v ys) := by
  induction xs with
  | nil => intro acc ys; simp [digitsValAux]
  | cons b bs ih =>
    intro acc ys
    by_cases hd : 48 ≤ b ∧ b ≤ 57
    · rw [show (b :: bs) ++ ys = b :: (bs ++ ys) from rfl]
      rw [digitsValAux_cons, digitsValAux_cons, if_pos hd, if_pos hd, ih]
    · rw [show (b :: bs) ++ ys = b :: (bs ++ ys) from rfl]
      rw [digitsValAux_cons, digitsValAux_cons, if_neg hd, if_neg hd]
      rfl

theorem digitsValAux_value (fuel : Nat) : ∀ n acc, n < 10 ^ fuel →
    digitsValAux acc ((natDigitsRev fuel n).reverse) =
      some (acc * 10 ^ (natDigitsRev fuel n).length + n) := by
  induction fuel with
  | zero =>
    intro n acc h
    have : n = 0 := by simpa using h
    subst this
    simp [natDigitsRev, digitsValAux]
  | succ f ih =>
    intro n acc h
    cases n with
    | zero => simp [natDigitsRev, digitsValAux]
    | succ m =>
      rw [natDigitsRev, List.reverse_cons, digitsValAux_append]
      have hdiv : (m + 1) / 10 < 10 ^ f := by
        rw [Nat.div_lt_iff_lt_mul (by norm_num)]
        calc m + 1 < 10 ^ (f + 1) := h
          _ = 10 ^ f * 10 := by rw [pow_succ]
      rw [ih ((m + 1) / 10) acc hdiv]
      rw [Option.some_bind]
      unfold digitsValAux
      rw [if_pos (by omega)]
      unfold digitsValAux
      congr 1
      rw [List.length_cons, pow_succ]
      have hsub : (m + 1) % 10 + 48 - 48 = (m + 1) % 10 := by omega
      rw [hsub]
      have hdm : 10 * ((m + 1) / 10) + (m + 1) % 10 = m + 1 := Nat.div_add_mod _ _
      set q := (m + 1) / 10 with hq
      set rr := (m + 1) % 10 with hr
      rw [← hdm]
      ring

theorem digitsVal_cons (b : Nat) (bs : List Nat) :
    digitsVal (b :: bs) = digitsValAux 0 (b :: bs) := rfl

theorem digitsVal_natDecimal (n : Nat) (h : n < 10 ^ 30) :
    digitsVal (natDecimal n) = some n := by
  obtain ⟨x, xs, hx⟩ : ∃ x xs, natDecimal n = x :: xs := by
    cases hc : natDecimal n with
    | nil => exact absurd hc (natDecimal_ne_nil n)
    | cons x xs => exact ⟨x, xs, rfl⟩
  rw [hx, digitsVal_cons, ← hx]
  by_cases h0 : n = 0
  · subst h0
    rw [show natDecimal 0 = [48] from rfl]
    decide
  · unfold natDecimal
    rw [if_neg h0]
    rw [digitsValAux_value 30 n 0 h]
    simp

theorem parseU64_natDecimal (n : Nat) (h : n < 2 ^ 64) : parseU64 (natDecimal n) = some n := by
  have h30 : n < 10 ^ 30 := lt_trans h (by norm_num)
  obtain ⟨x, xs, hx⟩ : ∃ x xs, natDecimal n = x :: xs := by
    cases hc : natDecimal n with
    | nil => exact absurd hc (natDecimal_ne_nil n)
    | cons x xs => exact ⟨x, xs, rfl⟩
  have hxd := natDecimal_digits n x (by rw [hx]; exact List.mem_cons_self x xs)
  unfold parseU64
  rw [hx]
  rw [if_neg (by simp; omega)]
  rw [← hx, digitsVal_natDecimal n h30]
  show (if n < 2 ^ 64 then some n else none) = some n
  rw [if_pos h]

theorem parseI64_intDecimal (v : Int) (hlo : -(2 ^ 63 : Int) ≤ v) (hhi : v < 2 ^ 63) :
    parseI64 (intDecimal v) = some v := by
  by_cases hneg : v < 0
  · have hm : ((-v).toNat : Int) = -v := Int.toNat_of_nonneg (by omega)
    have hm63 : (-v).toNat ≤ 2 ^ 63 := by omega
    have hm30 : (-v).toNat < 10 ^ 30 := by
      have : ((-v).toNat : Int) ≤ 2 ^ 63 := by omega
      have h2 : (2 : Int) ^ 63 < 10 ^ 30 := by norm_num
      omega
    unfold intDecimal
    rw [if_pos hneg]
    unfold parseI64
    rw [if_pos (by simp)]
    show (match digitsVal (natDecimal (-v).toNat) with
      | none => none
      | some w => if w ≤ 2 ^ 63 then some (-(w : Int)) else none) = some v
    rw [digitsVal_natDecimal _ hm30]
    show (if (-v).toNat ≤ 2 ^ 63 then some (-((-v).toNat : Int)) else none) = some v
    rw [if_pos hm63]
    congr 1
    omega
  · have hv : (v.toNat : Int) = v := Int.toNat_of_nonneg (by omega)
    have hv63 : v.toNat < 2 ^ 63 := by omega
    have hv30 : v.toNat < 10 ^ 30 := by
      have h2 : (2 : Int) ^ 63 < 10 ^ 30 := by norm_num
      omega
    unfold intDecimal
    rw [if_neg hneg]
    obtain ⟨x, xs, hx⟩ : ∃ x xs, natDecimal v.toNat = x :: xs := by
      cases hc : natDecimal v.toNat with
      | nil => exact absurd hc (natDecimal_ne_nil _)
      | cons x xs => exact ⟨x, xs, rfl⟩
    have hxd := natDecimal_digits v.toNat x (by rw [hx]; exact List.mem_cons_self x xs)
    unfold parseI64
    rw [hx]
    rw [if_neg (by simp; omega), if_neg (by simp; omega)]
    rw [← hx, digitsVal_natDecimal _ hv30]
    show (if v.toNat < 2 ^ 63 then some ((v.toNat : Nat) : Int) else none) = some v
    rw [if_pos hv63, hv]

theorem parseU64Field_natDecimal (n : Nat) (h : n < 2 ^ 64) :
    parseU64Field (natDecimal n) = .ok n := by
  unfold parseU64Field
  rw [parseU64_natDecimal n h]

theorem parseI64Field_intDecimal (v : Int) (hlo : -(2 ^ 63 : Int) ≤ v) (hhi : v < 2 ^ 63) :
    parseI64Field (intDecimal v) = .ok v := by
  unfold parseI64Field
  rw [parseI64_intDecimal v hlo hhi]

/-! ## Token round-trips -/

theorem ttFromStr_asStr (t : TransactionType) : transactionTypeFromStr t.asStr = .ok t := by
  cases t <;> decide

theorem stFromStr_asStr (s : TransactionStatus) : transactionStatusFromStr s.asStr = .ok s := by
  cases s <;> decide

theorem ttFromInt_asInt (t : TransactionType) : transactionTypeFromInt t.asInt = .ok t := by
  cases t <;> decide

theorem stFromInt_asInt (s : TransactionStatus) : transactionStatusFromInt s.asInt = .ok s := by
  cases s <;> decide

theorem ttStr_bytes (t : TransactionType) : ∀ b ∈ t.asStr, 65 ≤ b ∧ b ≤ 90 := by
  cases t <;> decide

theorem stStr_bytes (s : TransactionStatus) : ∀ b ∈ s.asStr, 65 ≤ b ∧ b ≤ 90 := by
  cases s <;> decide

theorem ttStr_ne_nil (t : TransactionType) : t.asStr ≠ [] := by
  cases t <;> decide

theorem stStr_ne_nil (s : TransactionStatus) : s.asStr ≠ [] := by
  cases s <;> decide

/-! ## Field-chain round-trip -/

theorem except_bind_ok {ε α β : Type} (a : α) (f : α → Except ε β) :
    (do
      let x ← (Except.ok a : Except ε α)
      f x) = f a := rfl

theorem except_pure_eq {ε α : Type} (a : α) : (pure a : Except ε α) = Except.ok a := rfl

theorem recordFromEight_roundtrip (r : YPBankRecord) (h : WfRecord r) :
    recordFromEight (natDecimal r.id) r.transaction_type.asStr
      (natDecimal r.from_user_id) (natDecimal r.to_user_id)
      (intDecimal r.amount) (natDecimal r.ts) r.status.asStr r.description = .ok r := by
  obtain ⟨h1, h2, h3, h4, h5, h6, h7, h8⟩ := h
  have hfu : parse_from_user_id (natDecimal r.from_user_id) r.transaction_type =
      .ok r.from_user_id := by
    unfold parse_from_user_id
    rw [parseU64_natDecimal _ h2]
    show validate_from_user_id r.from_user_id r.transaction_type = .ok r.from_user_id
    unfold validate_from_user_id
    rw [if_neg (by tauto)]
  have htu : parse_to_user_id (natDecimal r.to_user_id) r.transaction_type =
      .ok r.to_user_id := by
    unfold parse_to_user_id
    rw [parseU64_natDecimal _ h3]
    show validate_to_user_id r.to_user_id r.transaction_type = .ok r.to_user_id
    unfold validate_to_user_id
    rw [if_neg (by tauto)]
  unfold recordFromEight
  simp only [ttFromStr_asStr, stFromStr_asStr, hfu, htu,
    parseU64Field_natDecimal r.id h1, parseU64Field_natDecimal r.ts h4,
    parseI64Field_intDecimal r.amount h5 h6,
    except_bind_ok, except_pure_eq]

/-! ## Byte-class helpers -/

theorem intDecimal_bytes (v : Int) : ∀ b ∈ intDecimal v, (48 ≤ b ∧ b ≤ 57) ∨ b = 45 := by
  intro b hb
  unfold intDecimal at hb
  by_cases h : v < 0
  · rw [if_pos h] at hb
    rcases List.mem_cons.mp hb with h' | h'
    · right; exact h'
    · left; exact natDecimal_digits _ b h'
  · rw [if_neg h] at hb
    left; exact natDecimal_digits _ b hb

theorem notMem_digits {c : Nat} {l : List Nat} (h : ∀ b ∈ l, 48 ≤ b ∧ b ≤ 57)
    (hc : c < 48 ∨ 57 < c) : c ∉ l := by
  intro m
  have := h c m
  omega

theorem notMem_upper {c : Nat} {l : List Nat} (h : ∀ b ∈ l, 65 ≤ b ∧ b ≤ 90)
    (hc : c < 65 ∨ 90 < c) : c ∉ l := by
  intro m
  have := h c m
  omega

theorem notMem_int {c : Nat} {l : List Nat} (h : ∀ b ∈ l, (48 ≤ b ∧ b ≤ 57) ∨ b = 45)
    (hc : (c < 48 ∨ 57 < c) ∧ c ≠ 45) : c ∉ l := by
  intro m
  have := h c m
  omega

theorem mem_of_getLast?_eq {l : List Nat} {y : Nat} (h : l.getLast? = some y) : y ∈ l := by
  have hh : l.reverse.head? = some y := by rw [List.head?_reverse]; exact h
  have hmem : y ∈ l.reverse := by
    cases lr : l.reverse with
    | nil => rw [lr] at hh; simp at hh
    | cons a as =>
      rw [lr] at hh
      simp only [List.head?_cons, Option.some.injEq] at hh
      rw [hh]
      exact List.mem_cons_self _ _
  simpa using hmem

theorem getLast?_cons_of_ne_nil (a : Nat) (l : List Nat) (h : l ≠ []) :
    (a :: l).getLast? = l.getLast? := by
  rw [show a :: l = [a] ++ l from rfl, List.getLast?_append_of_ne_nil _ h]

/-! ## Reusable tokenizer corollaries -/

theorem sepCollect_field (a b : List Nat) (h44 : 44 ∉ a) (h34 : 34 ∉ a) (hb : b ≠ []) :
    sepCollect (a ++ 44 :: b) = a :: sepCollect b := by
  have hne : a ++ 44 :: b ≠ [] := by simp
  rw [sepCollect_cons _ hne, sepNext_split a [] b h44 h34 hb, sepCollect_cons b hb]
  simp

theorem sepCollect_single (cs : List Nat) (h : cs ≠ []) (hq : noUnquotedSep false cs = true) :
    sepCollect cs = [cs] := by
  rw [sepCollect_cons cs h, sepNext_protected cs false [] hq]
  simp

theorem quoteState_no_quote (cs : List Nat) : ∀ q, 34 ∉ cs → quoteState q cs = q := by
  induction cs with
  | nil => intro q _; rfl
  | cons b bs ih =>
    intro q h
    have hb : b ≠ 34 := fun e => h (by simp [e])
    have h' : 34 ∉ bs := fun m => h (List.mem_cons_of_mem _ m)
    unfold quoteState
    rw [List.foldl_cons, if_neg hb]
    exact ih q h'

theorem specSplitFields_no_sep (cs : List Nat) : ∀ q, 44 ∉ cs → specSplitFields q cs = [cs] := by
  induction cs with
  | nil => intro q _; rfl
  | cons b bs ih =>
    intro q h
    have hb : b ≠ 44 := fun e => h (by simp [e])
    have h' : 44 ∉ bs := fun m => h (List.mem_cons_of_mem _ m)
    exact specSplitFields_cons_other q b bs bs [] (by tauto) (ih _ h')

theorem sepCollect_trailing (cs : List Nat) (h34 : 34 ∉ cs) (h44 : 44 ∉ cs) :
    sepCollect (cs ++ [44]) = [cs] := by
  rw [sepCollect_cons _ (by simp), sepNext_trailing_sep cs false []
    (quoteState_no_quote cs false h34)]
  rw [specSplitFields_no_sep cs false h44]
  simp [consHeadField]

/-! ## Delimited-text per-record round-trip -/

theorem csvWriteRecord_eq (r : YPBankRecord) :
    csvWriteRecord r =
      (natDecimal r.id ++ 44 :: (r.transaction_type.asStr ++ 44 :: (natDecimal r.from_user_id ++
        44 :: (natDecimal r.to_user_id ++ 44 :: (intDecimal r.amount ++ 44 :: (natDecimal r.ts ++
        44 :: (r.status.asStr ++ 44 :: r.description))))))) ++ [10] := by
  simp [csvWriteRecord]

theorem csvRecordFromRead_write (r : YPBankRecord) (rest : List Nat)
    (hwf : WfRecord r) (hd : DescOkCsv r.description) :
    csvRecordFromRead (csvWriteRecord r ++ rest) = .ok (some r, rest) := by
  obtain ⟨hdne, hdbytes, hdlast, hdq⟩ := hd
  set body : List Nat :=
    natDecimal r.id ++ 44 :: (r.transaction_type.asStr ++ 44 :: (natDecimal r.from_user_id ++
      44 :: (natDecimal r.to_user_id ++ 44 :: (intDecimal r.amount ++ 44 :: (natDecimal r.ts ++
      44 :: (r.status.asStr ++ 44 :: r.description)))))) with hbody
  have hbytes : ∀ b ∈ body, 32 ≤ b ∧ b ≤ 126 := by
    intro b hb
    rw [hbody] at hb
    simp only [List.mem_append, List.mem_cons] at hb
    rcases hb with h | h | h | h | h | h | h | h | h | h | h | h | h | h | h
    · have := natDecimal_digits r.id b h; omega
    · omega
    · have := ttStr_bytes r.transaction_type b h; omega
    · omega
    · have := natDecimal_digits r.from_user_id b h; omega
    · omega
    · have := natDecimal_digits r.to_user_id b h; omega
    · omega
    · have := intDecimal_bytes r.amount b h; omega
    · omega
    · have := natDecimal_digits r.ts b h; omega
    · omega
    · have := stStr_bytes r.status b h; omega
    · omega
    · have := hdbytes b h; omega
  have h10 : (10 : Nat) ∉ body := fun m => by have := hbytes 10 m; omega
  obtain ⟨x, xs, hx⟩ : ∃ x xs, natDecimal r.id = x :: xs := by
    cases hc : natDecimal r.id with
    | nil => exact absurd hc (natDecimal_ne_nil _)
    | cons x xs => exact ⟨x, xs, rfl⟩
  have hxdig := natDecimal_digits r.id x (by rw [hx]; exact List.mem_cons_self x xs)
  have hbh : body.head? = some x := by
    rw [hbody, List.head?_append_of_ne_nil _ (by rw [hx]; simp), hx]
    rfl
  have hbl : body.getLast? = r.description.getLast? := by
    rw [hbody]
    rw [List.getLast?_append_of_ne_nil _ (by simp), getLast?_cons_of_ne_nil _ _ (by simp)]
    rw [List.getLast?_append_of_ne_nil _ (by simp), getLast?_cons_of_ne_nil _ _ (by simp)]
    rw [List.getLast?_append_of_ne_nil _ (by simp), getLast?_cons_of_ne_nil _ _ (by simp)]
    rw [List.getLast?_append_of_ne_nil _ (by simp), getLast?_cons_of_ne_nil _ _ (by simp)]
    rw [List.getLast?_append_of_ne_nil _ (by simp), getLast?_cons_of_ne_nil _ _ (by simp)]
    rw [List.getLast?_append_of_ne_nil _ (by simp), getLast?_cons_of_ne_nil _ _ (by simp)]
    rw [List.getLast?_append_of_ne_nil _ (by simp), getLast?_cons_of_ne_nil _ _ hdne]
  obtain ⟨y, hy⟩ : ∃ y, r.description.getLast? = some y := by
    cases hc : r.description.getLast? with
    | none => rw [List.getLast?_eq_none_iff] at hc; exact absurd hc hdne
    | some y => exact ⟨y, rfl⟩
  have hymem := mem_of_getLast?_eq hy
  have hyrange := hdbytes y hymem
  have hy32 : y ≠ 32 := fun e => hdlast (by rw [hy, e])
  have htrim : trimAscii (body ++ [10]) = body := by
    refine trimAscii_line body x y hbh ?_ (by rw [hbl]; exact hy) ?_
    · simp only [isWsByte]
      simp only [decide_eq_false_iff_not]
      omega
    · simp only [isWsByte]
      simp only [decide_eq_false_iff_not]
      omega
  have hsep : sepCollect body = [natDecimal r.id, r.transaction_type.asStr,
      natDecimal r.from_user_id, natDecimal r.to_user_id, intDecimal r.amount,
      natDecimal r.ts, r.status.asStr, r.description] := by
    rw [hbody]
    rw [sepCollect_field _ _ (notMem_digits (natDecimal_digits r.id) (by omega))
      (notMem_digits (natDecimal_digits r.id) (by omega)) (by simp)]
    rw [sepCollect_field _ _ (notMem_upper (ttStr_bytes r.transaction_type) (by omega))
      (notMem_upper (ttStr_bytes r.transaction_type) (by omega)) (by simp)]
    rw [sepCollect_field _ _ (notMem_digits (natDecimal_digits r.from_user_id) (by omega))
      (notMem_digits (natDecimal_digits r.from_user_id) (by omega)) (by simp)]
    rw [sepCollect_field _ _ (notMem_digits (natDecimal_digits r.to_user_id) (by omega))
      (notMem_digits (natDecimal_digits r.to_user_id) (by omega)) (by simp)]
    rw [sepCollect_field _ _ (notMem_int (intDecimal_bytes r.amount) (by omega))
      (notMem_int (intDecimal_bytes r.amount) (by omega)) (by simp)]
    rw [sepCollect_field _ _ (notMem_digits (natDecimal_digits r.ts) (by omega))
      (notMem_digits (natDecimal_digits r.ts) (by omega)) (by simp)]
    rw [sepCollect_field _ _ (notMem_upper (stStr_bytes r.status) (by omega))
      (notMem_upper (stStr_bytes r.status) (by omega)) hdne]
    rw [sepCollect_single r.description hdne hdq]
  have hvals : csvFromRawValues [natDecimal r.id, r.transaction_type.asStr,
      natDecimal r.from_user_id, natDecimal r.to_user_id, intDecimal r.amount,
      natDecimal r.ts, r.status.asStr, r.description] = .ok r := by
    show recordFromEight (natDecimal r.id) r.transaction_type.asStr
      (natDecimal r.from_user_id) (natDecimal r.to_user_id)
      (intDecimal r.amount) (natDecimal r.ts) r.status.asStr r.description = .ok r
    exact recordFromEight_roundtrip r hwf
  have hwrite : csvWriteRecord r ++ rest = body ++ 10 :: rest := by
    rw [csvWriteRecord_eq, hbody]
    simp
  rw [hwrite]
  unfold csvRecordFromRead
  simp only [readLine_line body rest h10]
  rw [htrim]
  rw [if_neg (by rw [hbody]; simp)]
  rw [hsep, hvals]

theorem csvRecordFromRead_write_empty_desc (r : YPBankRecord) (rest : List Nat)
    (hdesc : r.description = []) :
    csvRecordFromRead (csvWriteRecord r ++ rest) =
      .error (.invalidRow (asciiBytes "Expected 8 fields, got " ++ natDecimal 7)) := by
  set body : List Nat :=
    natDecimal r.id ++ 44 :: (r.transaction_type.asStr ++ 44 :: (natDecimal r.from_user_id ++
      44 :: (natDecimal r.to_user_id ++ 44 :: (intDecimal r.amount ++ 44 :: (natDecimal r.ts ++
      44 :: (r.status.asStr ++ 44 :: ([] : List Nat))))))) with hbody
  have hbytes : ∀ b ∈ body, 32 ≤ b ∧ b ≤ 126 := by
    intro b hb
    rw [hbody] at hb
    simp only [List.mem_append, List.mem_cons] at hb
    rcases hb with h | h | h | h | h | h | h | h | h | h | h | h | h | h | h
    · have := natDecimal_digits r.id b h; omega
    · omega
    · have := ttStr_bytes r.transaction_type b h; omega
    · omega
    · have := natDecimal_digits r.from_user_id b h; omega
    · omega
    · have := natDecimal_digits r.to_user_id b h; omega
    · omega
    · have := intDecimal_bytes r.amount b h; omega
    · omega
    · have := natDecimal_digits r.ts b h; omega
    · omega
    · have := stStr_bytes r.status b h; omega
    · omega
    · simp at h
  have h10 : (10 : Nat) ∉ body := fun m => by have := hbytes 10 m; omega
  obtain ⟨x, xs, hx⟩ : ∃ x xs, natDecimal r.id = x :: xs := by
    cases hc : natDecimal r.id with
    | nil => exact absurd hc (natDecimal_ne_nil _)
    | cons x xs => exact ⟨x, xs, rfl⟩
  have hxdig := natDecimal_digits r.id x (by rw [hx]; exact List.mem_cons_self x xs)
  have hbh : body.head? = some x := by
    rw [hbody, List.head?_append_of_ne_nil _ (by rw [hx]; simp), hx]
    rfl
  have hbl : body.getLast? = some 44 := by
    rw [hbody]
    rw [List.getLast?_append_of_ne_nil _ (by simp), getLast?_cons_of_ne_nil _ _ (by simp)]
    rw [List.getLast?_append_of_ne_nil _ (by simp), getLast?_cons_of_ne_nil _ _ (by simp)]
    rw [List.getLast?_append_of_ne_nil _ (by simp), getLast?_cons_of_ne_nil _ _ (by simp)]
    rw [List.getLast?_append_of_ne_nil _ (by simp), getLast?_cons_of_ne_nil _ _ (by simp)]
    rw [List.getLast?_append_of_ne_nil _ (by simp), getLast?_cons_of_ne_nil _ _ (by simp)]
    rw [List.getLast?_append_of_ne_nil _ (by simp), getLast?_cons_of_ne_nil _ _ (by simp)]
    rw [List.getLast?_append_of_ne_nil _ (by simp)]
    rfl
  have htrim : trimAscii (body ++ [10]) = body := by
    refine trimAscii_line body x 44 hbh ?_ hbl (by decide)
    simp only [isWsByte]
    simp only [decide_eq_false_iff_not]
    omega
  have hsep : sepCollect body = [natDecimal r.id, r.transaction_type.asStr,
      natDecimal r.from_user_id, natDecimal r.to_user_id, intDecimal r.amount,
      natDecimal r.ts, r.status.asStr] := by
    rw [hbody]
    rw [sepCollect_field _ _ (notMem_digits (natDecimal_digits r.id) (by omega))
      (notMem_digits (natDecimal_digits r.id) (by omega)) (by simp)]
    rw [sepCollect_field _ _ (notMem_upper (ttStr_bytes r.transaction_type) (by omega))
      (notMem_upper (ttStr_bytes r.transaction_type) (by omega)) (by simp)]
    rw [sepCollect_field _ _ (notMem_digits (natDecimal_digits r.from_user_id) (by omega))
      (notMem_digits (natDecimal_digits r.from_user_id) (by omega)) (by simp)]
    rw [sepCollect_field _ _ (notMem_digits (natDecimal_digits r.to_user_id) (by omega))
      (notMem_digits (natDecimal_digits r.to_user_id) (by omega)) (by simp)]
    rw [sepCollect_field _ _ (notMem_int (intDecimal_bytes r.amount) (by omega))
      (notMem_int (intDecimal_bytes r.amount) (by omega)) (by simp)]
    rw [sepCollect_field _ _ (notMem_digits (natDecimal_digits r.ts) (by omega))
      (notMem_digits (natDecimal_digits r.ts) (by omega)) (by simp)]
    rw [sepCollect_trailing r.status.asStr
      (notMem_upper (stStr_bytes r.status) (by omega))
      (notMem_upper (stStr_bytes r.status) (by omega))]
  have hvals : csvFromRawValues [natDecimal r.id, r.transaction_type.asStr,
      natDecimal r.from_user_id, natDecimal r.to_user_id, intDecimal r.amount,
      natDecimal r.ts, r.status.asStr] =
      .error (.invalidRow (asciiBytes "Expected 8 fields, got " ++ natDecimal 7)) := rfl
  have hwrite : csvWriteRecord r ++ rest = body ++ 10 :: rest := by
    rw [csvWriteRecord_eq, hbody, hdesc]
    simp
  rw [hwrite]
  unfold csvRecordFromRead
  simp only [readLine_line body rest h10]
  rw [htrim]
  rw [if_neg (by rw [hbody]; simp)]
  rw [hsep, hvals]

/-! ## Delimited-text sequence round-trip and C6 -/

theorem csvStep_nil : csvRecordFromRead [] = .ok (none, []) := rfl

theorem readLoop_step_some (step : List Nat → Except ParseError (Option YPBankRecord × List Nat))
    (fuel : Nat) (input : List Nat) (r : YPBankRecord) (rest : List Nat)
    (h : step input = .ok (some r, rest)) :
    readLoop step (fuel + 1) input =
      match readLoop step fuel rest with
      | .error e => .error e
      | .ok rs => .ok (r :: rs) := by
  conv_lhs => unfold readLoop
  rw [h]

theorem readLoop_csv (rs : List YPBankRecord)
    (h : ∀ r ∈ rs, WfRecord r ∧ DescOkCsv r.description) :
    ∀ fuel, ((rs.map csvWriteRecord).flatten).length < fuel →
      readLoop csvRecordFromRead fuel ((rs.map csvWriteRecord).flatten) = .ok rs := by
  induction rs with
  | nil =>
    intro fuel hf
    cases fuel with
    | zero => omega
    | succ f =>
      show readLoop csvRecordFromRead (f + 1) ([] : List Nat) = .ok []
      unfold readLoop
      rw [csvStep_nil]
  | cons r rs ih =>
    intro fuel hf
    have hr := h r (List.mem_cons_self _ _)
    have hrs : ∀ r' ∈ rs, WfRecord r' ∧ DescOkCsv r'.description :=
      fun r' m => h r' (List.mem_cons_of_mem _ m)
    have hlen : 0 < (csvWriteRecord r).length := by
      rw [csvWriteRecord_eq]
      simp
    have hflat : ((r :: rs).map csvWriteRecord).flatten =
        csvWriteRecord r ++ (rs.map csvWriteRecord).flatten := by simp
    rw [hflat] at hf ⊢
    cases fuel with
    | zero => omega
    | succ f =>
      rw [readLoop_step_some _ f _ r _ (csvRecordFromRead_write r _ hr.1 hr.2)]
      rw [ih hrs f (by simp only [List.length_append] at hf; omega)]

theorem readLine_csv_write (rs : List YPBankRecord) :
    readLine (writeAll .csv rs) = (TARGET_HEADER, (rs.map csvWriteRecord).flatten) := by
  show readLine (TARGET_HEADER ++ (rs.map csvWriteRecord).flatten) = _
  rw [show TARGET_HEADER =
    asciiBytes "TX_ID,TX_TYPE,FROM_USER_ID,TO_USER_ID,AMOUNT,TIMESTAMP,STATUS,DESCRIPTION" ++ [10]
    from by decide]
  rw [show (asciiBytes "TX_ID,TX_TYPE,FROM_USER_ID,TO_USER_ID,AMOUNT,TIMESTAMP,STATUS,DESCRIPTION"
      ++ [10]) ++ (rs.map csvWriteRecord).flatten =
    asciiBytes "TX_ID,TX_TYPE,FROM_USER_ID,TO_USER_ID,AMOUNT,TIMESTAMP,STATUS,DESCRIPTION"
      ++ 10 :: (rs.map csvWriteRecord).flatten from by simp]
  rw [readLine_line _ _ (by decide)]

theorem csv_roundtrip (rs : List YPBankRecord)
    (h : ∀ r ∈ rs, WfRecord r ∧ DescOkCsv r.description) :
    csvReadAll (writeAll .csv rs) = .ok rs := by
  have hpre : csvPreRead (writeAll .csv rs) = .ok ((rs.map csvWriteRecord).flatten) := by
    unfold csvPreRead
    simp only [readLine_csv_write]
    simp
  unfold csvReadAll
  rw [hpre]
  exact readLoop_csv rs h _ (by omega)

/-- C6: reading a delimited-text source whose first line is not the exact
literal header fails with `InvalidCsvHeader` carrying that line, before any
record is parsed; and writing emits exactly that header line first,
followed by the rendered records. -/
theorem csv_header_spec :
    (∀ input : List Nat, (readLine input).1 ≠ TARGET_HEADER →
      csvReadAll input = .error (.invalidCsvHeader (readLine input).1)) ∧
    (∀ rs : List YPBankRecord,
      readLine (writeAll .csv rs) = (TARGET_HEADER, (rs.map csvWriteRecord).flatten)) := by
  constructor
  · intro input hne
    have hpre : csvPreRead input = .error (.invalidCsvHeader (readLine input).1) := by
      unfold csvPreRead
      rw [if_neg hne]
    unfold csvReadAll
    rw [hpre]
  · exact readLine_csv_write

/-- C6 witness: the empty source fails with `InvalidCsvHeader`, and writing
the empty record list emits the header line. -/
theorem csv_header_spec_witness :
    csvReadAll [] = .error (.invalidCsvHeader []) ∧
    readLine (writeAll .csv []) = (TARGET_HEADER, []) := by
  constructor
  · have h := csv_header_spec.1 [] (by decide)
    simpa using h
  · have h := csv_header_spec.2 []
    simpa using h

/-- C9: a line ending with a delimiter outside quotes tokenizes to the
plain quote-aware split of the line before that delimiter - the trailing
empty field is dropped; consequently the delimited-text line written for a
record whose description is empty tokenizes to 7 fields and the per-record
read fails with `InvalidRow`. -/
theorem csv_trailing_delimiter_dropped :
    (∀ cs : List Nat, quoteState false cs = false →
      sepCollect (cs ++ [44]) = specSplitFields false cs) ∧
    (∀ (r : YPBankRecord) (rest : List Nat), r.description = [] →
      csvRecordFromRead (csvWriteRecord r ++ rest) =
        .error (.invalidRow (asciiBytes "Expected 8 fields, got " ++ natDecimal 7))) := by
  constructor
  · intro cs hq
    rw [sepCollect_cons _ (by simp), sepNext_trailing_sep cs false [] hq]
    exact consHeadField_nil_of_ne _ (specSplitFields_ne_nil cs false)
  · exact csvRecordFromRead_write_empty_desc

/-- C9 witness: the trailing-delimiter drop and the empty-description
failure at concrete inputs. -/
theorem csv_trailing_delimiter_dropped_witness :
    sepCollect (asciiBytes "a,b,") = specSplitFields false (asciiBytes "a,b") ∧
    csvRecordFromRead
        (csvWriteRecord ⟨1, .deposit, 1, 2, 3, 4, .success, []⟩ ++ []) =
      .error (.invalidRow (asciiBytes "Expected 8 fields, got " ++ natDecimal 7)) := by
  constructor
  · have h := csv_trailing_delimiter_dropped.1 (asciiBytes "a,b") (by decide)
    rw [show asciiBytes "a,b," = asciiBytes "a,b" ++ [44] from by decide]
    exact h
  · exact csv_trailing_delimiter_dropped.2 ⟨1, .deposit, 1, 2, 3, 4, .success, []⟩ [] rfl

/-! ## Binary primitives -/

theorem bytesBE_length (k n : Nat) : (bytesBE k n).length = k := by
  induction k with
  | zero => rfl
  | succ k ih => simp [bytesBE, ih]

theorem beVal_aux (k : Nat) : ∀ n a : Nat,
    (bytesBE k n).foldl (fun x b => x * 256 + b) a = a * 256 ^ k + n % 256 ^ k := by
  induction k with
  | zero => intro n a; simp [bytesBE, Nat.mod_one]
  | succ k ih =>
    intro n a
    rw [bytesBE, List.foldl_cons, ih]
    rw [pow_succ, Nat.mod_mul]
    ring

theorem beVal_bytesBE (k n : Nat) : beVal (bytesBE k n) = n % 256 ^ k := by
  unfold beVal
  rw [beVal_aux]
  simp

theorem readExact_append (bs rest : List Nat) (n : Nat) (h : bs.length = n) :
    readExact n (bs ++ rest) = some (bs, rest) := by
  unfold readExact
  subst h
  rw [if_pos (by simp)]
  rw [List.take_left, List.drop_left]

theorem readExact_short (n : Nat) (input : List Nat) (h : input.length < n) :
    readExact n input = none := by
  unfold readExact
  rw [if_neg (by omega)]

theorem readU64_append (v : Nat) (rest : List Nat) :
    readU64 (bytesBE 8 v ++ rest) = .ok (v % 2 ^ 64, rest) := by
  unfold readU64
  simp only [readExact_append _ _ _ (bytesBE_length 8 v), beVal_bytesBE]
  norm_num

theorem readU32_append (v : Nat) (rest : List Nat) :
    readU32 (bytesBE 4 v ++ rest) = .ok (v % 2 ^ 32, rest) := by
  unfold readU32
  simp only [readExact_append _ _ _ (bytesBE_length 4 v), beVal_bytesBE]
  norm_num

theorem readU8_cons (b : Nat) (rest : List Nat) : readU8 (b :: rest) = .ok (b, rest) := by
  unfold readU8
  rw [show b :: rest = [b] ++ rest from rfl]
  simp only [readExact_append [b] rest 1 rfl]
  simp [beVal]

theorem readU64_short (input : List Nat) (h : input.length < 8) :
    readU64 input = .error (.ioError ioEofMsg) := by
  unfold readU64
  rw [readExact_short 8 input h]

theorem readU32_short (input : List Nat) (h : input.length < 4) :
    readU32 input = .error (.ioError ioEofMsg) := by
  unfold readU32
  rw [readExact_short 4 input h]

theorem readI64_append (v : Int) (rest : List Nat)
    (hlo : -(2 ^ 63 : Int) ≤ v) (hhi : v < 2 ^ 63) :
    readI64 (bytesBE 8 (v % 2 ^ 64).toNat ++ rest) = .ok (v, rest) := by
  have hnn : (0 : Int) ≤ v % 2 ^ 64 := Int.emod_nonneg v (by norm_num)
  have hub : v % 2 ^ 64 < 2 ^ 64 := Int.emod_lt_of_pos v (by norm_num)
  have hmod : (v % 2 ^ 64).toNat % 256 ^ 8 = (v % 2 ^ 64).toNat := by
    apply Nat.mod_eq_of_lt
    have : ((v % 2 ^ 64).toNat : Int) < 2 ^ 64 := by omega
    have h64 : (256 : Nat) ^ 8 = 2 ^ 64 := by norm_num
    omega
  unfold readI64
  simp only [readExact_append _ _ _ (bytesBE_length 8 _), beVal_bytesBE, hmod]
  have hv : ((v % 2 ^ 64).toNat : Int) = v % 2 ^ 64 := Int.toNat_of_nonneg hnn
  by_cases hc : (v % 2 ^ 64).toNat < 2 ^ 63
  · rw [if_pos hc]
    have : ((v % 2 ^ 64).toNat : Int) < 2 ^ 63 := by exact_mod_cast hc
    have heq : ((v % 2 ^ 64).toNat : Int) = v := by omega
    rw [heq]
  · rw [if_neg hc]
    have : ¬ ((v % 2 ^ 64).toNat : Int) < 2 ^ 63 := by exact_mod_cast hc
    have heq : ((v % 2 ^ 64).toNat : Int) - 2 ^ 64 = v := by omega
    rw [heq]

theorem validateMagic_append (rest : List Nat) : validateMagic (MAGIC ++ rest) = .ok rest := by
  unfold validateMagic
  simp only [readExact_append MAGIC rest 4 rfl]
  simp

theorem except_bind_error {ε α β : Type} (e : ε) (f : α → Except ε β) :
    (do
      let x ← (Except.error e : Except ε α)
      f x) = Except.error e := rfl

theorem readDescription_append (d : List Nat) (rest : List Nat)
    (hlen : d.length < 2 ^ 32) (hutf : validUtf8 d = true) :
    readDescription (bytesBE 4 (d.length % 2 ^ 32) ++ (d ++ rest)) = .ok (d, rest) := by
  have hmm : d.length % 2 ^ 32 % 2 ^ 32 = d.length := by
    rw [Nat.mod_eq_of_lt (Nat.mod_lt _ (by norm_num)), Nat.mod_eq_of_lt hlen]
  unfold readDescription
  simp only [readU32_append, hmm, readExact_append d rest d.length rfl, hutf]
  rfl

theorem binParseRecord_write (r : YPBankRecord) (rest : List Nat)
    (hwf : WfRecord r) (hutf : validUtf8 r.description = true)
    (hdlen : r.description.length < 2 ^ 32) :
    binParseRecord (bytesBE 8 r.id ++ (r.transaction_type.asInt :: (bytesBE 8 r.from_user_id ++
      (bytesBE 8 r.to_user_id ++ (bytesBE 8 (r.amount % 2 ^ 64).toNat ++ (bytesBE 8 r.ts ++
      (r.status.asInt :: (bytesBE 4 (r.description.length % 2 ^ 32) ++
      (r.description ++ rest))))))))) = .ok (r, rest) := by
  obtain ⟨h1, h2, h3, h4, h5, h6, h7, h8⟩ := hwf
  have hfu : validate_from_user_id (r.from_user_id % 2 ^ 64) r.transaction_type =
      .ok r.from_user_id := by
    rw [Nat.mod_eq_of_lt h2]
    unfold validate_from_user_id
    rw [if_neg (by tauto)]
  have htu : validate_to_user_id (r.to_user_id % 2 ^ 64) r.transaction_type =
      .ok r.to_user_id := by
    rw [Nat.mod_eq_of_lt h3]
    unfold validate_to_user_id
    rw [if_neg (by tauto)]
  unfold binParseRecord
  simp only [readU64_append, readU8_cons, except_bind_ok, ttFromInt_asInt, stFromInt_asInt,
    hfu, htu, readI64_append r.amount _ h5 h6,
    readDescription_append r.description rest hdlen hutf,
    Nat.mod_eq_of_lt h1, Nat.mod_eq_of_lt h4, except_pure_eq]

theorem binRecordFromRead_write (r : YPBankRecord) (rest : List Nat)
    (hwf : WfRecord r) (hd : DescOkBin r.description) :
    binRecordFromRead (binWriteRecord r ++ rest) = .ok (some r, rest) := by
  obtain ⟨hutf, hlen⟩ := hd
  have hsz : getRecordSize r.description = 46 + r.description.length := by
    unfold getRecordSize
    exact Nat.mod_eq_of_lt hlen
  have hw : binWriteRecord r ++ rest = MAGIC ++ (bytesBE 4 (getRecordSize r.description) ++
      (bytesBE 8 r.id ++ (r.transaction_type.asInt :: (bytesBE 8 r.from_user_id ++
      (bytesBE 8 r.to_user_id ++ (bytesBE 8 (r.amount % 2 ^ 64).toNat ++ (bytesBE 8 r.ts ++
      (r.status.asInt :: (bytesBE 4 (r.description.length % 2 ^ 32) ++
      (r.description ++ rest)))))))))) := by
    simp [binWriteRecord]
  rw [hw]
  have hval : getRecordSize r.description % 2 ^ 32 = 46 + r.description.length := by
    unfold getRecordSize
    rw [Nat.mod_eq_of_lt (Nat.mod_lt _ (by norm_num)), Nat.mod_eq_of_lt hlen]
  unfold binRecordFromRead
  simp only [validateMagic_append, readU32_append, hval]
  rw [if_neg (by omega)]
  simp only [binParseRecord_write r rest hwf hutf (by omega)]

/-! ## Binary sequence round-trip -/

theorem binStep_nil : binRecordFromRead [] = .ok (none, []) := rfl

theorem readLoop_bin (rs : List YPBankRecord)
    (h : ∀ r ∈ rs, WfRecord r ∧ DescOkBin r.description) :
    ∀ fuel, ((rs.map binWriteRecord).flatten).length < fuel →
      readLoop binRecordFromRead fuel ((rs.map binWriteRecord).flatten) = .ok rs := by
  induction rs with
  | nil =>
    intro fuel hf
    cases fuel with
    | zero => omega
    | succ f =>
      show readLoop binRecordFromRead (f + 1) ([] : List Nat) = .ok []
      unfold readLoop
      rw [binStep_nil]
  | cons r rs ih =>
    intro fuel hf
    have hr := h r (List.mem_cons_self _ _)
    have hrs : ∀ r' ∈ rs, WfRecord r' ∧ DescOkBin r'.description :=
      fun r' m => h r' (List.mem_cons_of_mem _ m)
    have hlen : 0 < (binWriteRecord r).length := by
      unfold binWriteRecord MAGIC
      simp
    have hflat : ((r :: rs).map binWriteRecord).flatten =
        binWriteRecord r ++ (rs.map binWriteRecord).flatten := by simp
    rw [hflat] at hf ⊢
    cases fuel with
    | zero => omega
    | succ f =>
      rw [readLoop_step_some _ f _ r _ (binRecordFromRead_write r _ hr.1 hr.2)]
      rw [ih hrs f (by simp only [List.length_append] at hf; omega)]

theorem bin_roundtrip (rs : List YPBankRecord)
    (h : ∀ r ∈ rs, WfRecord r ∧ DescOkBin r.description) :
    binReadAll (writeAll .bin rs) = .ok rs := by
  unfold binReadAll
  show readLoop binRecordFromRead (((rs.map binWriteRecord).flatten).length + 1)
    ((rs.map binWriteRecord).flatten) = .ok rs
  exact readLoop_bin rs h _ (by omega)

/-! ## C10: truncation after a valid magic -/

theorem readU64_cases (input : List Nat) :
    (∃ v rest, readU64 input = .ok (v, rest)) ∨ readU64 input = .error (.ioError ioEofMsg) := by
  rcases h : readExact 8 input with _ | ⟨bs, rest⟩
  · right
    unfold readU64
    rw [h]
  · left
    refine ⟨beVal bs, rest, ?_⟩
    unfold readU64
    rw [h]

theorem readU32_cases (input : List Nat) :
    (∃ v rest, readU32 input = .ok (v, rest)) ∨ readU32 input = .error (.ioError ioEofMsg) := by
  rcases h : readExact 4 input with _ | ⟨bs, rest⟩
  · right
    unfold readU32
    rw [h]
  · left
    refine ⟨beVal bs, rest, ?_⟩
    unfold readU32
    rw [h]

theorem readU8_cases (input : List Nat) :
    (∃ v rest, readU8 input = .ok (v, rest)) ∨ readU8 input = .error (.ioError ioEofMsg) := by
  rcases h : readExact 1 input with _ | ⟨bs, rest⟩
  · right
    unfold readU8
    rw [h]
  · left
    refine ⟨beVal bs, rest, ?_⟩
    unfold readU8
    rw [h]

theorem readI64_cases (input : List Nat) :
    (∃ v rest, readI64 input = .ok (v, rest)) ∨ readI64 input = .error (.ioError ioEofMsg) := by
  rcases h : readExact 8 input with _ | ⟨bs, rest⟩
  · right
    unfold readI64
    rw [h]
  · left
    refine ⟨if beVal bs < 2 ^ 63 then (beVal bs : Int) else (beVal bs : Int) - 2 ^ 64, rest, ?_⟩
    unfold readI64
    rw [h]

theorem ttFromInt_cases (v : Nat) :
    (∃ t, transactionTypeFromInt v = .ok t) ∨
      transactionTypeFromInt v = .error (.invalidTransactionTypeValue (natDecimal v)) := by
  unfold transactionTypeFromInt
  by_cases h0 : v = 0
  · left; exact ⟨.deposit, by rw [if_pos h0]⟩
  · rw [if_neg h0]
    by_cases h1 : v = 1
    · left; exact ⟨.transfer, by rw [if_pos h1]⟩
    · rw [if_neg h1]
      by_cases h2 : v = 2
      · left; exact ⟨.withdrawal, by rw [if_pos h2]⟩
      · right; rw [if_neg h2]

theorem stFromInt_cases (v : Nat) :
    (∃ t, transactionStatusFromInt v = .ok t) ∨
      transactionStatusFromInt v = .error (.invalidStatusValue (natDecimal v)) := by
  unfold transactionStatusFromInt
  by_cases h0 : v = 0
  · left; exact ⟨.success, by rw [if_pos h0]⟩
  · rw [if_neg h0]
    by_cases h1 : v = 1
    · left; exact ⟨.failure, by rw [if_pos h1]⟩
    · rw [if_neg h1]
      by_cases h2 : v = 2
      · left; exact ⟨.pending, by rw [if_pos h2]⟩
      · right; rw [if_neg h2]

theorem validate_from_cases (v : Nat) (t : TransactionType) :
    validate_from_user_id v t = .ok v ∨
      validate_from_user_id v t = .error (.invalidUserId (natDecimal v) t) := by
  unfold validate_from_user_id
  by_cases h : v = 0 ∧ t ≠ .deposit
  · right; rw [if_pos h]
  · left; rw [if_neg h]

theorem validate_to_cases (v : Nat) (t : TransactionType) :
    validate_to_user_id v t = .ok v ∨
      validate_to_user_id v t = .error (.invalidUserId (natDecimal v) t) := by
  unfold validate_to_user_id
  by_cases h : v = 0 ∧ t ≠ .withdrawal
  · right; rw [if_pos h]
  · left; rw [if_neg h]

theorem readDescription_cases (input : List Nat) :
    (∃ d rest, readDescription input = .ok (d, rest)) ∨
      readDescription input = .error (.ioError ioEofMsg) ∨
      readDescription input = .error (.invalidRawValue utf8ErrMsg) := by
  rcases readU32_cases input with ⟨len, r1, h1⟩ | h1
  · rcases h2 : readExact len r1 with _ | ⟨bs, rest⟩
    · right; left
      unfold readDescription
      rw [h1]
      show (match readExact len r1 with
        | none => (Except.error (.ioError ioEofMsg) : Except ParseError (List Nat × List Nat))
        | some (bs, rest) =>
          if validUtf8 bs then .ok (bs, rest) else .error (.invalidRawValue utf8ErrMsg)) = _
      rw [h2]
    · by_cases hu : validUtf8 bs
      · left
        refine ⟨bs, rest, ?_⟩
        unfold readDescription
        rw [h1]
        show (match readExact len r1 with
          | none => (Except.error (.ioError ioEofMsg) : Except ParseError (List Nat × List Nat))
          | some (bs, rest) =>
            if validUtf8 bs then .ok (bs, rest) else .error (.invalidRawValue utf8ErrMsg)) = _
        simp only [h2]
        rw [if_pos hu]
      · right; right
        unfold readDescription
        rw [h1]
        show (match readExact len r1 with
          | none => (Except.error (.ioError ioEofMsg) : Except ParseError (List Nat × List Nat))
          | some (bs, rest) =>
            if validUtf8 bs then .ok (bs, rest) else .error (.invalidRawValue utf8ErrMsg)) = _
        simp only [h2]
        rw [if_neg hu]
  · right; left
    unfold readDescription
    rw [h1]

theorem binParseRecord_ne_eof (input : List Nat) :
    binParseRecord input ≠ .error .unexpectedEOF := by
  intro h
  unfold binParseRecord at h
  rcases readU64_cases input with ⟨v1, i1, he1⟩ | he1
  · simp only [he1, except_bind_ok] at h
    rcases readU8_cases i1 with ⟨v2, i2, he2⟩ | he2
    · simp only [he2, except_bind_ok] at h
      rcases ttFromInt_cases v2 with ⟨tt, he3⟩ | he3
      · simp only [he3, except_bind_ok] at h
        rcases readU64_cases i2 with ⟨v3, i3, he4⟩ | he4
        · simp only [he4, except_bind_ok] at h
          rcases validate_from_cases v3 tt with he5 | he5
          · simp only [he5, except_bind_ok] at h
            rcases readU64_cases i3 with ⟨v4, i4, he6⟩ | he6
            · simp only [he6, except_bind_ok] at h
              rcases validate_to_cases v4 tt with he7 | he7
              · simp only [he7, except_bind_ok] at h
                rcases readI64_cases i4 with ⟨v5, i5, he8⟩ | he8
                · simp only [he8, except_bind_ok] at h
                  rcases readU64_cases i5 with ⟨v6, i6, he9⟩ | he9
                  · simp only [he9, except_bind_ok] at h
                    rcases readU8_cases i6 with ⟨v7, i7, he10⟩ | he10
                    · simp only [he10, except_bind_ok] at h
                      rcases stFromInt_cases v7 with ⟨st, he11⟩ | he11
                      · simp only [he11, except_bind_ok] at h
                        rcases readDescription_cases i7 with ⟨d, i8, he12⟩ | he12 | he12
                        · simp only [he12, except_bind_ok, except_pure_eq] at h
                          exact Except.noConfusion h
                        · simp only [he12, except_bind_error] at h
                          exact ParseError.noConfusion (Except.error.inj h)
                        · simp only [he12, except_bind_error] at h
                          exact ParseError.noConfusion (Except.error.inj h)
                      · simp only [he11, except_bind_error] at h
                        exact ParseError.noConfusion (Except.error.inj h)
                    · simp only [he10, except_bind_error] at h
                      exact ParseError.noConfusion (Except.error.inj h)
                  · simp only [he9, except_bind_error] at h
                    exact ParseError.noConfusion (Except.error.inj h)
                · simp only [he8, except_bind_error] at h
                  exact ParseError.noConfusion (Except.error.inj h)
              · simp only [he7, except_bind_error] at h
                exact ParseError.noConfusion (Except.error.inj h)
            · simp only [he6, except_bind_error] at h
              exact ParseError.noConfusion (Except.error.inj h)
          · simp only [he5, except_bind_error] at h
            exact ParseError.noConfusion (Except.error.inj h)
        · simp only [he4, except_bind_error] at h
          exact ParseError.noConfusion (Except.error.inj h)
      · simp only [he3, except_bind_error] at h
        exact ParseError.noConfusion (Except.error.inj h)
    · simp only [he2, except_bind_error] at h
      exact ParseError.noConfusion (Except.error.inj h)
  · simp only [he1, except_bind_error] at h
    exact ParseError.noConfusion (Except.error.inj h)

theorem binRecordFromRead_ne_eof (input : List Nat) :
    binRecordFromRead input ≠ .error .unexpectedEOF := by
  intro h
  unfold binRecordFromRead at h
  rcases hv : validateMagic input with e | r1
  · simp only [hv] at h
    by_cases he : e = .unexpectedEOF
    · rw [if_pos he] at h
      exact Except.noConfusion h
    · rw [if_neg he] at h
      exact he (Except.error.inj h)
  · simp only [hv] at h
    rcases readU32_cases r1 with ⟨sz, r2, h2⟩ | h2
    · simp only [h2] at h
      by_cases hz : sz = 0
      · rw [if_pos hz] at h
        exact Except.noConfusion h
      · rw [if_neg hz] at h
        rcases hp : binParseRecord r2 with e2 | p
        · simp only [hp] at h
          exact binParseRecord_ne_eof r2 (by rw [hp, Except.error.inj h])
        · simp only [hp] at h
          exact Except.noConfusion h
    · simp only [h2] at h
      exact ParseError.noConfusion (Except.error.inj h)

theorem readI64_append_any (am : Nat) (rest : List Nat) :
    readI64 (bytesBE 8 am ++ rest) =
      .ok (if beVal (bytesBE 8 am) < 2 ^ 63 then (beVal (bytesBE 8 am) : Int)
           else (beVal (bytesBE 8 am) : Int) - 2 ^ 64, rest) := by
  unfold readI64
  simp only [readExact_append _ _ _ (bytesBE_length 8 am)]

/-- C10: after a valid 4-byte magic, a stream that is truncated inside the
RECORD_SIZE field, inside a fixed-width field, or inside the description
bytes fails with `IOError` wrapping the underlying I/O error message; the
per-record read never produces `UnexpectedEOF` (that error arises only
inside the magic read, where it is mapped to the clean no-record
outcome). -/
theorem bin_truncation_io_error :
    (∀ rest : List Nat, rest.length < 4 →
      binRecordFromRead (MAGIC ++ rest) = .error (.ioError ioEofMsg)) ∧
    (∀ (sz : Nat) (rest : List Nat), sz % 2 ^ 32 ≠ 0 → rest.length < 8 →
      binRecordFromRead (MAGIC ++ (bytesBE 4 sz ++ rest)) = .error (.ioError ioEofMsg)) ∧
    (∀ (sz id f : Nat) (tt : TransactionType) (rest : List Nat),
      sz % 2 ^ 32 ≠ 0 → (f % 2 ^ 64 = 0 → tt = .deposit) → rest.length < 8 →
      binRecordFromRead (MAGIC ++ (bytesBE 4 sz ++ (bytesBE 8 id ++ (tt.asInt ::
        (bytesBE 8 f ++ rest))))) = .error (.ioError ioEofMsg)) ∧
    (∀ (sz id f t am ts n : Nat) (tt : TransactionType) (st : TransactionStatus)
        (rest : List Nat),
      sz % 2 ^ 32 ≠ 0 → (f % 2 ^ 64 = 0 → tt = .deposit) →
      (t % 2 ^ 64 = 0 → tt = .withdrawal) → rest.length < n % 2 ^ 32 →
      binRecordFromRead (MAGIC ++ (bytesBE 4 sz ++ (bytesBE 8 id ++ (tt.asInt ::
        (bytesBE 8 f ++ (bytesBE 8 t ++ (bytesBE 8 am ++ (bytesBE 8 ts ++ (st.asInt ::
        (bytesBE 4 n ++ rest)))))))))) = .error (.ioError ioEofMsg)) ∧
    (∀ input : List Nat, binRecordFromRead input ≠ .error .unexpectedEOF) := by
  refine ⟨?_, ?_, ?_, ?_, binRecordFromRead_ne_eof⟩
  · intro rest hr
    unfold binRecordFromRead
    simp only [validateMagic_append, readU32_short rest hr]
  · intro sz rest hsz hr
    unfold binRecordFromRead
    simp only [validateMagic_append, readU32_append]
    rw [if_neg hsz]
    unfold binParseRecord
    simp only [readU64_short rest hr, except_bind_error]
  · intro sz id f tt rest hsz hf hr
    have hval : validate_from_user_id (f % 2 ^ 64) tt = .ok (f % 2 ^ 64) := by
      unfold validate_from_user_id
      rw [if_neg (by tauto)]
    unfold binRecordFromRead
    simp only [validateMagic_append, readU32_append]
    rw [if_neg hsz]
    unfold binParseRecord
    simp only [readU64_append, readU8_cons, except_bind_ok, ttFromInt_asInt, hval,
      readU64_short rest hr, except_bind_error]
  · intro sz id f t am ts n tt st rest hsz hf ht hr
    have hvalf : validate_from_user_id (f % 2 ^ 64) tt = .ok (f % 2 ^ 64) := by
      unfold validate_from_user_id
      rw [if_neg (by tauto)]
    have hvalt : validate_to_user_id (t % 2 ^ 64) tt = .ok (t % 2 ^ 64) := by
      unfold validate_to_user_id
      rw [if_neg (by tauto)]
    have hdesc : readDescription (bytesBE 4 n ++ rest) = .error (.ioError ioEofMsg) := by
      have hmm2 : n % 2 ^ 32 % 2 ^ 32 = n % 2 ^ 32 :=
        Nat.mod_eq_of_lt (Nat.mod_lt _ (by norm_num))
      unfold readDescription
      simp only [readU32_append, hmm2, readExact_short _ _ hr]
    unfold binRecordFromRead
    simp only [validateMagic_append, readU32_append]
    rw [if_neg hsz]
    unfold binParseRecord
    simp only [readU64_append, readU8_cons, except_bind_ok, ttFromInt_asInt, stFromInt_asInt,
      hvalf, hvalt, readI64_append_any, hdesc, except_bind_error]

/-- C10 witness: the truncation conjuncts at concrete inputs. -/
theorem bin_truncation_io_error_witness :
    binRecordFromRead (MAGIC ++ [0]) = .error (.ioError ioEofMsg) ∧
    binRecordFromRead (MAGIC ++ (bytesBE 4 50 ++ [1, 2, 3])) = .error (.ioError ioEofMsg) := by
  constructor
  · exact bin_truncation_io_error.1 [0] (by decide)
  · exact bin_truncation_io_error.2.1 50 [1, 2, 3] (by decide) (by decide)

/-! ## Labeled-text loop step lemmas -/

theorem txtGo_stop (fuel : Nat) (m : List (List Nat × List Nat)) (count : Nat)
    (input : List Nat) (h : 8 ≤ count) :
    txtParseRawValuesGo (fuel + 1) m count input = .ok (some m, input) := by
  conv_lhs => unfold txtParseRawValuesGo
  rw [if_pos h]

theorem txtGo_eof (fuel : Nat) (m : List (List Nat × List Nat)) (count : Nat)
    (h8 : ¬ 8 ≤ count) :
    txtParseRawValuesGo (fuel + 1) m count [] =
      if count = 0 then .ok (none, []) else .error (.inconsistentRecord eofWhileParsingMsg) := by
  conv_lhs => unfold txtParseRawValuesGo
  rw [if_neg h8]
  simp only [show readLine ([] : List Nat) = ([], []) from rfl]
  simp

theorem txtGo_blank0 (fuel : Nat) (m : List (List Nat × List Nat)) (rest : List Nat) :
    txtParseRawValuesGo (fuel + 1) m 0 (10 :: rest) = txtParseRawValuesGo fuel m 0 rest := by
  conv_lhs => unfold txtParseRawValuesGo
  rw [if_neg (by omega)]
  simp only [show readLine (10 :: rest) = ([10], rest) from by simp [readLine]]
  rw [if_neg (by simp), if_neg (by decide)]
  simp

theorem txtGo_blank_mid (fuel : Nat) (m : List (List Nat × List Nat)) (count : Nat)
    (rest : List Nat) (hc : count ≠ 0) (h8 : ¬ 8 ≤ count) :
    txtParseRawValuesGo (fuel + 1) m count (10 :: rest) =
      .error (.inconsistentRecord newLineWhileParsingMsg) := by
  conv_lhs => unfold txtParseRawValuesGo
  rw [if_neg h8]
  simp only [show readLine (10 :: rest) = ([10], rest) from by simp [readLine]]
  rw [if_neg (by simp), if_neg (by decide)]
  simp [hc]

theorem txtGo_step (fuel : Nat) (m : List (List Nat × List Nat)) (count : Nat)
    (body rest : List Nat) (h8 : ¬ 8 ≤ count) (h10 : 10 ∉ body)
    (h35 : (body ++ [10]).head? ≠ some 35) (hnl : body ++ [10] ≠ [10])
    (k v : List Nat) (hparse : txtParseRawLine (body ++ [10]) = .ok (k, v)) :
    txtParseRawValuesGo (fuel + 1) m count (body ++ 10 :: rest) =
      txtParseRawValuesGo fuel (mapInsert k v m) (count + 1) rest := by
  conv_lhs => unfold txtParseRawValuesGo
  rw [if_neg h8]
  simp only [readLine_line body rest h10]
  rw [if_neg (by simp), if_neg h35, if_neg hnl]
  simp only [hparse]

/-- One labeled-text line that parses as a field: the collected pair and
the conditions under which the loop counts it. -/
theorem txtGo_fields (ps : List (List Nat × List Nat)) :
    ∀ (m : List (List Nat × List Nat)) (c fuel : Nat) (y : List Nat),
    c + ps.length = 8 →
    (∀ p ∈ ps, p.1 ≠ [] ∧ p.1.head? ≠ some 35 ∧ 10 ∉ p.1 ∧ 58 ∉ p.1 ∧
      10 ∉ p.2 ∧ 58 ∉ p.2) →
    (txtRenderLines ps ++ y).length < fuel →
    txtParseRawValuesGo fuel m c (txtRenderLines ps ++ y) =
      .ok (some ((ps.map
        (fun p => (trimAscii p.1, trimAscii (32 :: (p.2 ++ [10]))))).reverse ++ m), y) := by
  induction ps with
  | nil =>
    intro m c fuel y hc _ hfuel
    cases fuel with
    | zero => simp at hfuel
    | succ f =>
      have hc8 : 8 ≤ c := by simp at hc; omega
      simp only [txtRenderLines, List.map_nil, List.flatten_nil, List.nil_append] at hfuel ⊢
      rw [txtGo_stop f m c y hc8]
      simp
  | cons p ps ih =>
    intro m c fuel y hc hok hfuel
    have hp := hok p (List.mem_cons_self _ _)
    obtain ⟨hk_ne, hk35, hk10, hk58, hv10, hv58⟩ := hp
    have hline_mem : ∀ b ∈ txtLine p.1 p.2, b ∈ p.1 ∨ b = 58 ∨ b = 32 ∨ b ∈ p.2 := by
      intro b hb
      unfold txtLine at hb
      simp only [List.mem_append, List.mem_cons, List.not_mem_nil, or_false] at hb
      tauto
    have hline10 : (10 : Nat) ∉ txtLine p.1 p.2 := by
      intro hm
      rcases hline_mem 10 hm with h | h | h | h
      · exact hk10 h
      · omega
      · omega
      · exact hv10 h
    have hexp : txtRenderLines (p :: ps) ++ y =
        txtLine p.1 p.2 ++ 10 :: (txtRenderLines ps ++ y) := by
      unfold txtRenderLines
      simp
    cases fuel with
    | zero => simp at hfuel
    | succ f =>
      rw [hexp] at hfuel ⊢
      have hparse : txtParseRawLine (txtLine p.1 p.2 ++ [10]) =
          .ok (trimAscii p.1, trimAscii (32 :: (p.2 ++ [10]))) := by
        have hsp : txtLine p.1 p.2 ++ [10] = p.1 ++ 58 :: (32 :: (p.2 ++ [10])) := by
          unfold txtLine
          simp
        unfold txtParseRawLine
        rw [hsp, splitOnByte_append 58 p.1 _ hk58]
        rw [splitOnByte_no 58 _ (by
          intro hm
          simp only [List.mem_cons, List.mem_append, List.not_mem_nil, or_false] at hm
          rcases hm with h | h | h
          · omega
          · exact hv58 h
          · omega)]
      have h35 : (txtLine p.1 p.2 ++ [10]).head? ≠ some 35 := by
        obtain ⟨kb, ks, hkk⟩ : ∃ kb ks, p.1 = kb :: ks := by
          cases hkc : p.1 with
          | nil => exact absurd hkc hk_ne
          | cons kb ks => exact ⟨kb, ks, rfl⟩
        unfold txtLine
        rw [hkk]
        intro hcontra
        simp at hcontra
        apply hk35
        rw [hkk, hcontra]
        rfl
      have hnl : txtLine p.1 p.2 ++ [10] ≠ [10] := by
        intro hcontra
        have := congrArg List.length hcontra
        unfold txtLine at this
        simp at this
        omega
      rw [txtGo_step f m c (txtLine p.1 p.2) (txtRenderLines ps ++ y) (by simp at hc; omega)
        hline10 h35 hnl _ _ hparse]
      rw [ih (mapInsert (trimAscii p.1) (trimAscii (32 :: (p.2 ++ [10]))) m) (c + 1) f y
        (by simp at hc ⊢; omega)
        (fun q hq => hok q (List.mem_cons_of_mem _ hq))
        (by simp only [List.length_append, List.length_cons] at hfuel ⊢; omega)]
      unfold mapInsert
      simp

/-! ## C7: labeled-text stream-end behavior -/

theorem fieldLine_parse (l : List Nat) (hcount : l.count 58 = 1) :
    ∃ a b, txtParseRawLine l = .ok (a, b) := by
  obtain ⟨a, b, hab⟩ : ∃ a b, splitOnByte 58 l = [a, b] := by
    have hlen := splitOnByte_length 58 l
    rw [hcount] at hlen
    rcases hsp : splitOnByte 58 l with _ | ⟨x, _ | ⟨y, _ | ⟨z, zs⟩⟩⟩
    · rw [hsp] at hlen; simp at hlen
    · rw [hsp] at hlen; simp at hlen
    · exact ⟨x, y, rfl⟩
    · rw [hsp] at hlen; simp at hlen
  refine ⟨trimAscii a, trimAscii b, ?_⟩
  unfold txtParseRawLine
  rw [hab]

theorem txtGo_fieldlines_eof (ls : List (List Nat)) :
    ∀ (m : List (List Nat × List Nat)) (c fuel : Nat),
      (∀ l ∈ ls, FieldLineOk l) → c + ls.length ≤ 7 → ls.flatten.length < fuel →
      txtParseRawValuesGo fuel m c ls.flatten =
        if c + ls.length = 0 then .ok (none, [])
        else .error (.inconsistentRecord eofWhileParsingMsg) := by
  induction ls with
  | nil =>
    intro m c fuel hok hc hfuel
    cases fuel with
    | zero => simp at hfuel
    | succ f =>
      simp only [List.flatten_nil, List.length_nil]
      rw [txtGo_eof f m c (by omega)]
      simp
  | cons l ls ih =>
    intro m c fuel hok hc hfuel
    obtain ⟨⟨body, hleq, h10, hbne⟩, h35, hcount⟩ := hok l (List.mem_cons_self _ _)
    obtain ⟨k, v, hparse⟩ := fieldLine_parse l hcount
    have hnl : l ≠ [10] := by
      rw [hleq]
      intro e
      have hlen := congrArg List.length e
      simp at hlen
      exact hbne hlen
    have hflat : (l :: ls).flatten = body ++ 10 :: ls.flatten := by
      rw [List.flatten_cons, hleq]
      simp
    simp at hc
    cases fuel with
    | zero => simp at hfuel
    | succ f =>
      rw [hflat] at hfuel ⊢
      rw [txtGo_step f m c body ls.flatten (by omega) h10 (hleq ▸ h35) (hleq ▸ hnl) k v
        (hleq ▸ hparse)]
      rw [ih (mapInsert k v m) (c + 1) f
        (fun q hq => hok q (List.mem_cons_of_mem _ hq)) (by omega)
        (by simp only [List.length_append, List.length_cons] at hfuel; omega)]
      rw [if_neg (by omega), if_neg (by simp)]

theorem txtGo_fieldlines_blank (ls : List (List Nat)) :
    ∀ (m : List (List Nat × List Nat)) (c fuel : Nat) (rest : List Nat),
      (∀ l ∈ ls, FieldLineOk l) → 1 ≤ c + ls.length → c + ls.length ≤ 7 →
      (ls.flatten ++ 10 :: rest).length < fuel →
      txtParseRawValuesGo fuel m c (ls.flatten ++ 10 :: rest) =
        .error (.inconsistentRecord newLineWhileParsingMsg) := by
  induction ls with
  | nil =>
    intro m c fuel rest hok h1 hc hfuel
    simp only [List.flatten_nil, List.nil_append] at hfuel ⊢
    simp at h1 hc
    cases fuel with
    | zero => simp at hfuel
    | succ f => exact txtGo_blank_mid f m c rest (by omega) (by omega)
  | cons l ls ih =>
    intro m c fuel rest hok h1 hc hfuel
    obtain ⟨⟨body, hleq, h10, hbne⟩, h35, hcount⟩ := hok l (List.mem_cons_self _ _)
    obtain ⟨k, v, hparse⟩ := fieldLine_parse l hcount
    have hnl : l ≠ [10] := by
      rw [hleq]
      intro e
      have hlen := congrArg List.length e
      simp at hlen
      exact hbne hlen
    have hflat : (l :: ls).flatten ++ 10 :: rest = body ++ 10 :: (ls.flatten ++ 10 :: rest) := by
      rw [List.flatten_cons, hleq]
      simp
    simp at hc
    cases fuel with
    | zero => simp at hfuel
    | succ f =>
      rw [hflat] at hfuel ⊢
      rw [txtGo_step f m c body (ls.flatten ++ 10 :: rest) (by omega) h10 (hleq ▸ h35)
        (hleq ▸ hnl) k v (hleq ▸ hparse)]
      exact ih (mapInsert k v m) (c + 1) f rest
        (fun q hq => hok q (List.mem_cons_of_mem _ hq)) (by omega) (by omega)
        (by simp only [List.length_append, List.length_cons] at hfuel ⊢; omega)

/-- C7: the labeled-text per-record read returns the clean no-record
outcome at end of stream with zero fields collected, and fails with
`InconsistentRecord` - not `UnexpectedEOF` - when end of stream or a blank
line is reached after collecting between 1 and 7 fields. -/
theorem txt_stream_end_spec :
    txtRecordFromRead [] = .ok (none, []) ∧
    (∀ (ls : List (List Nat)) (rest : List Nat), 1 ≤ ls.length → ls.length ≤ 7 →
      (∀ l ∈ ls, FieldLineOk l) →
      txtRecordFromRead ls.flatten = .error (.inconsistentRecord eofWhileParsingMsg) ∧
      txtRecordFromRead (ls.flatten ++ 10 :: rest) =
        .error (.inconsistentRecord newLineWhileParsingMsg)) := by
  refine ⟨rfl, ?_⟩
  intro ls rest h1 h7 hok
  constructor
  · unfold txtRecordFromRead txtParseRawValues
    rw [txtGo_fieldlines_eof ls [] 0 (ls.flatten.length + 1) hok (by omega) (by omega)]
    rw [if_neg (by omega)]
  · unfold txtRecordFromRead txtParseRawValues
    rw [txtGo_fieldlines_blank ls [] 0 ((ls.flatten ++ 10 :: rest).length + 1) rest hok
      (by omega) (by omega) (by omega)]

/-- C7 witness: a single collected field followed by end of stream, and by
a blank line. -/
theorem txt_stream_end_spec_witness :
    txtRecordFromRead ([asciiBytes "TX_ID: 1\n"] : List (List Nat)).flatten =
      .error (.inconsistentRecord eofWhileParsingMsg) ∧
    txtRecordFromRead (([asciiBytes "TX_ID: 1\n"] : List (List Nat)).flatten ++ 10 :: []) =
      .error (.inconsistentRecord newLineWhileParsingMsg) :=
  txt_stream_end_spec.2 [asciiBytes "TX_ID: 1\n"] [] (by decide) (by decide)
    (by
      intro l hl
      simp at hl
      subst hl
      exact ⟨⟨asciiBytes "TX_ID: 1", by decide, by decide, by decide⟩, by decide, by decide⟩)

/-! ## C8: labeled-text field order irrelevance -/

theorem mapGet_cons (k₀ v₀ k : List Nat) (m : List (List Nat × List Nat)) :
    mapGet k ((k₀, v₀) :: m) = if k₀ = k then some v₀ else mapGet k m := by
  unfold mapGet
  by_cases h : k₀ = k
  · rw [if_pos h, List.find?_cons_of_pos _ (by simp [h])]
    rfl
  · rw [if_neg h, List.find?_cons_of_neg _ (by simp [h])]

theorem mapGet_perm {m₁ m₂ : List (List Nat × List Nat)} (h : m₁.Perm m₂) :
    (m₁.map Prod.fst).Nodup → ∀ k, mapGet k m₁ = mapGet k m₂ := by
  induction h with
  | nil => intro _ k; rfl
  | cons x pl ih =>
    intro hnd k
    rcases x with ⟨kx, vx⟩
    simp only [List.map_cons, List.nodup_cons] at hnd
    rw [mapGet_cons, mapGet_cons, ih hnd.2 k]
  | swap x y l =>
    intro hnd k
    rcases x with ⟨kx, vx⟩
    rcases y with ⟨ky, vy⟩
    have hne : ky ≠ kx := by
      intro e
      subst e
      simp at hnd
    rw [mapGet_cons, mapGet_cons, mapGet_cons, mapGet_cons]
    by_cases h1 : ky = k <;> by_cases h2 : kx = k
    · exact (hne (h1.trans h2.symm)).elim
    · simp [h1, h2]
    · simp [h1, h2]
    · simp [h1, h2]
  | trans p₁ p₂ ih₁ ih₂ =>
    intro hnd k
    rw [ih₁ hnd k, ih₂ ((p₁.map Prod.fst).nodup_iff.mp hnd) k]

theorem txtFromRawValues_perm (m₁ m₂ : List (List Nat × List Nat)) (h : m₁.Perm m₂)
    (hnd : (m₁.map Prod.fst).Nodup) : txtFromRawValues m₁ = txtFromRawValues m₂ := by
  have hg : ∀ k, mapGet k m₁ = mapGet k m₂ := mapGet_perm h hnd
  unfold txtFromRawValues
  simp only [hg]

theorem txtParse_render (ps : List (List Nat × List Nat)) (h8 : ps.length = 8)
    (hps : ∀ p ∈ ps, p.1 ≠ [] ∧ p.1.head? ≠ some 35 ∧ 10 ∉ p.1 ∧ 58 ∉ p.1 ∧
      10 ∉ p.2 ∧ 58 ∉ p.2) :
    txtParseRawValues (txtRenderLines ps) =
      .ok (some ((ps.map
        (fun p => (trimAscii p.1, trimAscii (32 :: (p.2 ++ [10]))))).reverse), []) := by
  unfold txtParseRawValues
  have h := txtGo_fields ps [] 0 ((txtRenderLines ps).length + 1) []
    (by omega) hps (by rw [List.append_nil]; exact Nat.lt_succ_self _)
  simpa using h

theorem txtRecordFromRead_render (ps : List (List Nat × List Nat)) (h8 : ps.length = 8)
    (hps : ∀ p ∈ ps, p.1 ≠ [] ∧ p.1.head? ≠ some 35 ∧ 10 ∉ p.1 ∧ 58 ∉ p.1 ∧
      10 ∉ p.2 ∧ 58 ∉ p.2) :
    txtRecordFromRead (txtRenderLines ps) =
      match txtFromRawValues ((ps.map
        (fun p => (trimAscii p.1, trimAscii (32 :: (p.2 ++ [10]))))).reverse) with
      | .error e => .error e
      | .ok r => .ok (some r, []) := by
  unfold txtRecordFromRead
  rw [txtParse_render ps h8 hps]

/-- C8: the 8 labeled-text KEY: VALUE lines of a record may be supplied in
any permutation of the canonical field order; the per-record read yields
the identical result. Values are arbitrary colon/newline-free byte
strings. -/
theorem txt_field_order_spec :
    ∀ (vs : List (List Nat)) (ps : List (List Nat × List Nat)),
      vs.length = 8 →
      (∀ v ∈ vs, 10 ∉ v ∧ 58 ∉ v) →
      ps.Perm (txtFields.zip vs) →
      txtRecordFromRead (txtRenderLines ps) =
        txtRecordFromRead (txtRenderLines (txtFields.zip vs)) := by
  intro vs ps hlen hvs hperm
  have hzlen : (txtFields.zip vs).length = 8 := by
    rw [List.length_zip, hlen]
    rfl
  have hcond : ∀ p ∈ txtFields.zip vs, p.1 ≠ [] ∧ p.1.head? ≠ some 35 ∧ 10 ∉ p.1 ∧
      58 ∉ p.1 ∧ 10 ∉ p.2 ∧ 58 ∉ p.2 := by
    have hkey : ∀ k ∈ txtFields, k ≠ [] ∧ k.head? ≠ some 35 ∧ 10 ∉ k ∧ 58 ∉ k := by decide
    rintro ⟨a, b⟩ hp
    rcases List.of_mem_zip hp with ⟨ha, hb⟩
    obtain ⟨k1, k2, k3, k4⟩ := hkey a ha
    obtain ⟨v1, v2⟩ := hvs b hb
    exact ⟨k1, k2, k3, k4, v1, v2⟩
  have hcondp : ∀ p ∈ ps, p.1 ≠ [] ∧ p.1.head? ≠ some 35 ∧ 10 ∉ p.1 ∧ 58 ∉ p.1 ∧
      10 ∉ p.2 ∧ 58 ∉ p.2 := fun p hp => hcond p (hperm.subset hp)
  have hplen : ps.length = 8 := by rw [hperm.length_eq, hzlen]
  rw [txtRecordFromRead_render ps hplen hcondp,
    txtRecordFromRead_render (txtFields.zip vs) hzlen hcond]
  have hkeys : (((txtFields.zip vs).map
      (fun p => (trimAscii p.1, trimAscii (32 :: (p.2 ++ [10]))))).map Prod.fst) =
      txtFields := by
    rw [List.map_map]
    calc (txtFields.zip vs).map (Prod.fst ∘
          (fun p => (trimAscii p.1, trimAscii (32 :: (p.2 ++ [10])))))
        = (txtFields.zip vs).map (trimAscii ∘ Prod.fst) := rfl
      _ = ((txtFields.zip vs).map Prod.fst).map trimAscii := by rw [List.map_map]
      _ = txtFields.map trimAscii := by
          rw [List.map_fst_zip txtFields vs (by rw [hlen]; decide)]
      _ = txtFields := by decide
  have hM : txtFromRawValues ((ps.map
      (fun p => (trimAscii p.1, trimAscii (32 :: (p.2 ++ [10]))))).reverse) =
      txtFromRawValues (((txtFields.zip vs).map
        (fun p => (trimAscii p.1, trimAscii (32 :: (p.2 ++ [10]))))).reverse) := by
    apply txtFromRawValues_perm
    · exact (List.reverse_perm _).trans ((hperm.map _).trans (List.reverse_perm _).symm)
    · have hpermKeys : (((ps.map
          (fun p => (trimAscii p.1, trimAscii (32 :: (p.2 ++ [10]))))).reverse.map
            Prod.fst).Perm
          (((txtFields.zip vs).map
            (fun p => (trimAscii p.1, trimAscii (32 :: (p.2 ++ [10]))))).map Prod.fst)) :=
        ((List.reverse_perm _).map Prod.fst).trans ((hperm.map _).map Prod.fst)
      rw [hpermKeys.nodup_iff, hkeys]
      decide
  rw [hM]

/-- C8 witness: the eight lines of a concrete record supplied in fully
reversed order parse to the same result as in canonical order. -/
theorem txt_field_order_spec_witness :
    txtRecordFromRead (txtRenderLines ((txtFields.zip
        [asciiBytes "1", asciiBytes "DEPOSIT", asciiBytes "0", asciiBytes "2",
         asciiBytes "3", asciiBytes "4", asciiBytes "SUCCESS", asciiBytes "d"]).reverse)) =
      txtRecordFromRead (txtRenderLines (txtFields.zip
        [asciiBytes "1", asciiBytes "DEPOSIT", asciiBytes "0", asciiBytes "2",
         asciiBytes "3", asciiBytes "4", asciiBytes "SUCCESS", asciiBytes "d"])) :=
  txt_field_order_spec
    [asciiBytes "1", asciiBytes "DEPOSIT", asciiBytes "0", asciiBytes "2",
     asciiBytes "3", asciiBytes "4", asciiBytes "SUCCESS", asciiBytes "d"]
    ((txtFields.zip
        [asciiBytes "1", asciiBytes "DEPOSIT", asciiBytes "0", asciiBytes "2",
         asciiBytes "3", asciiBytes "4", asciiBytes "SUCCESS", asciiBytes "d"]).reverse)
    (by decide) (by decide) (List.reverse_perm _)

/-! ## Labeled-text per-record round-trip -/

theorem mem_of_head?_eq {l : List Nat} {x : Nat} (h : l.head? = some x) : x ∈ l := by
  cases l with
  | nil => simp at h
  | cons a as =>
    simp only [List.head?_cons, Option.some.injEq] at h
    rw [← h]
    exact List.mem_cons_self _ _

theorem mapGet_cons_eq (k v : List Nat) (m : List (List Nat × List Nat)) :
    mapGet k ((k, v) :: m) = some v := by
  rw [mapGet_cons, if_pos rfl]

theorem mapGet_cons_ne (k₀ v₀ k : List Nat) (m : List (List Nat × List Nat))
    (h : k₀ ≠ k) : mapGet k ((k₀, v₀) :: m) = mapGet k m := by
  rw [mapGet_cons, if_neg h]

theorem trim_value_of_bytes (v : List Nat) (h : ∀ b ∈ v, 33 ≤ b ∧ b ≤ 126) :
    trimAscii (32 :: (v ++ [10])) = v := by
  apply trimAscii_value
  · intro x hx
    have hb := h x (mem_of_head?_eq hx)
    simp [isWsByte]
    omega
  · intro y hy
    have hb := h y (mem_of_getLast?_eq hy)
    simp [isWsByte]
    omega

theorem map_zip_id (g h : List Nat → List Nat) :
    ∀ (ks vs : List (List Nat)), (∀ k ∈ ks, g k = k) → (∀ v ∈ vs, h v = v) →
      (ks.zip vs).map (fun p => (g p.1, h p.2)) = ks.zip vs := by
  intro ks
  induction ks with
  | nil => intro vs _ _; rfl
  | cons k ks ih =>
    intro vs hk hv
    cases vs with
    | nil => rfl
    | cons v vs =>
      simp only [List.zip_cons_cons, List.map_cons]
      rw [hk k (List.mem_cons_self _ _), hv v (List.mem_cons_self _ _),
        ih vs (fun x hx => hk x (List.mem_cons_of_mem _ hx))
          (fun x hx => hv x (List.mem_cons_of_mem _ hx))]

theorem recordValues_trim (r : YPBankRecord) (hd : DescOkTxt r.description) :
    ∀ v ∈ recordValues r, trimAscii (32 :: (v ++ [10])) = v := by
  obtain ⟨hdb, hdh, hdl⟩ := hd
  intro v hv
  unfold recordValues at hv
  simp only [List.mem_cons, List.not_mem_nil, or_false] at hv
  rcases hv with rfl | rfl | rfl | rfl | rfl | rfl | rfl | rfl
  · exact trim_value_of_bytes _ (fun b hb => by have := natDecimal_digits _ b hb; omega)
  · exact trim_value_of_bytes _ (fun b hb => by have := ttStr_bytes _ b hb; omega)
  · exact trim_value_of_bytes _ (fun b hb => by have := natDecimal_digits _ b hb; omega)
  · exact trim_value_of_bytes _ (fun b hb => by have := natDecimal_digits _ b hb; omega)
  · exact trim_value_of_bytes _ (fun b hb => by have := intDecimal_bytes _ b hb; omega)
  · exact trim_value_of_bytes _ (fun b hb => by have := natDecimal_digits _ b hb; omega)
  · exact trim_value_of_bytes _ (fun b hb => by have := stStr_bytes _ b hb; omega)
  · apply trimAscii_value
    · intro x hx
      have hb := hdb x (mem_of_head?_eq hx)
      have hne : x ≠ 32 := fun e => hdh (e ▸ hx)
      simp [isWsByte]
      omega
    · intro y hy
      have hb := hdb y (mem_of_getLast?_eq hy)
      have hne : y ≠ 32 := fun e => hdl (e ▸ hy)
      simp [isWsByte]
      omega

theorem txtPairs_ok (r : YPBankRecord) (hd : DescOkTxt r.description) :
    ∀ p ∈ txtFields.zip (recordValues r), p.1 ≠ [] ∧ p.1.head? ≠ some 35 ∧ 10 ∉ p.1 ∧
      58 ∉ p.1 ∧ 10 ∉ p.2 ∧ 58 ∉ p.2 := by
  obtain ⟨hdb, hdh, hdl⟩ := hd
  have hkey : ∀ k ∈ txtFields, k ≠ [] ∧ k.head? ≠ some 35 ∧ 10 ∉ k ∧ 58 ∉ k := by decide
  have hval : ∀ v ∈ recordValues r, 10 ∉ v ∧ 58 ∉ v := by
    intro v hv
    unfold recordValues at hv
    simp only [List.mem_cons, List.not_mem_nil, or_false] at hv
    rcases hv with rfl | rfl | rfl | rfl | rfl | rfl | rfl | rfl
    · exact ⟨notMem_digits (natDecimal_digits _) (by omega),
        notMem_digits (natDecimal_digits _) (by omega)⟩
    · exact ⟨notMem_upper (ttStr_bytes _) (by omega), notMem_upper (ttStr_bytes _) (by omega)⟩
    · exact ⟨notMem_digits (natDecimal_digits _) (by omega),
        notMem_digits (natDecimal_digits _) (by omega)⟩
    · exact ⟨notMem_digits (natDecimal_digits _) (by omega),
        notMem_digits (natDecimal_digits _) (by omega)⟩
    · exact ⟨notMem_int (intDecimal_bytes _) (by omega),
        notMem_int (intDecimal_bytes _) (by omega)⟩
    · exact ⟨notMem_digits (natDecimal_digits _) (by omega),
        notMem_digits (natDecimal_digits _) (by omega)⟩
    · exact ⟨notMem_upper (stStr_bytes _) (by omega), notMem_upper (stStr_bytes _) (by omega)⟩
    · refine ⟨?_, ?_⟩
      · intro hm
        have := hdb 10 hm
        omega
      · intro hm
        exact (hdb 58 hm).2.2 rfl
  rintro ⟨a, b⟩ hp
  rcases List.of_mem_zip hp with ⟨ha, hb⟩
  obtain ⟨k1, k2, k3, k4⟩ := hkey a ha
  obtain ⟨v1, v2⟩ := hval b hb
  exact ⟨k1, k2, k3, k4, v1, v2⟩

theorem txtPairs_trim (r : YPBankRecord) (hd : DescOkTxt r.description) :
    ((txtFields.zip (recordValues r)).map
      (fun p => (trimAscii p.1, trimAscii (32 :: (p.2 ++ [10]))))) =
      txtFields.zip (recordValues r) :=
  map_zip_id trimAscii (fun v => trimAscii (32 :: (v ++ [10]))) txtFields (recordValues r)
    (by decide) (recordValues_trim r hd)

theorem txtFromRawValues_write (r : YPBankRecord) (hwf : WfRecord r) :
    txtFromRawValues ((txtFields.zip (recordValues r)).reverse) = .ok r := by
  have hrev : (txtFields.zip (recordValues r)).reverse =
      [(asciiBytes "DESCRIPTION", r.description),
       (asciiBytes "STATUS", r.status.asStr),
       (asciiBytes "TIMESTAMP", natDecimal r.ts),
       (asciiBytes "AMOUNT", intDecimal r.amount),
       (asciiBytes "TO_USER_ID", natDecimal r.to_user_id),
       (asciiBytes "FROM_USER_ID", natDecimal r.from_user_id),
       (asciiBytes "TX_TYPE", r.transaction_type.asStr),
       (asciiBytes "TX_ID", natDecimal r.id)] := rfl
  rw [hrev]
  unfold txtFromRawValues
  repeat (first | rw [mapGet_cons_eq] | rw [mapGet_cons_ne _ _ _ _ (by decide)])
  simp only [except_bind_ok]
  exact recordFromEight_roundtrip r hwf

theorem txtRecordFromRead_write (r : YPBankRecord) (rest : List Nat)
    (hwf : WfRecord r) (hd : DescOkTxt r.description) :
    txtRecordFromRead (txtWriteRecord r ++ rest) = .ok (some r, 10 :: rest) := by
  have hw : txtWriteRecord r ++ rest =
      txtRenderLines (txtFields.zip (recordValues r)) ++ (10 :: rest) := by
    unfold txtWriteRecord txtRenderLines
    rw [List.append_assoc]
    rfl
  rw [hw]
  unfold txtRecordFromRead txtParseRawValues
  rw [txtGo_fields (txtFields.zip (recordValues r)) [] 0
    ((txtRenderLines (txtFields.zip (recordValues r)) ++ (10 :: rest)).length + 1)
    (10 :: rest) rfl (txtPairs_ok r hd) (Nat.lt_succ_self _)]
  rw [List.append_nil, txtPairs_trim r hd]
  simp only [txtFromRawValues_write r hwf]

/-! ## Labeled-text sequence round-trip -/

theorem txtStep_nil : txtRecordFromRead [] = .ok (none, []) := rfl

theorem txtRecordFromRead_blank (x : List Nat) :
    txtRecordFromRead (10 :: x) = txtRecordFromRead x := by
  unfold txtRecordFromRead txtParseRawValues
  rw [txtGo_blank0]
  simp only [List.length_cons]

theorem readLoop_txt_blank (g : Nat) (x : List Nat) :
    readLoop txtRecordFromRead (g + 1) (10 :: x) = readLoop txtRecordFromRead (g + 1) x := by
  conv_lhs => unfold readLoop
  conv_rhs => unfold readLoop
  rw [txtRecordFromRead_blank]

theorem readLoop_txt (rs : List YPBankRecord)
    (h : ∀ r ∈ rs, WfRecord r ∧ DescOkTxt r.description) :
    ∀ fuel, ((rs.map txtWriteRecord).flatten).length < fuel →
      readLoop txtRecordFromRead fuel ((rs.map txtWriteRecord).flatten) = .ok rs := by
  induction rs with
  | nil =>
    intro fuel hf
    cases fuel with
    | zero => omega
    | succ f =>
      show readLoop txtRecordFromRead (f + 1) ([] : List Nat) = .ok []
      unfold readLoop
      rw [txtStep_nil]
  | cons r rs ih =>
    intro fuel hf
    obtain ⟨hwf, hd⟩ := h r (List.mem_cons_self _ _)
    have hrest : ∀ q ∈ rs, WfRecord q ∧ DescOkTxt q.description :=
      fun q hq => h q (List.mem_cons_of_mem _ hq)
    have hflat : ((r :: rs).map txtWriteRecord).flatten =
        txtWriteRecord r ++ (rs.map txtWriteRecord).flatten := by simp
    have htw : 1 ≤ (txtWriteRecord r).length := by
      unfold txtWriteRecord
      simp
    rw [hflat] at hf ⊢
    cases fuel with
    | zero => omega
    | succ f =>
      rw [readLoop_step_some _ f _ r _ (txtRecordFromRead_write r _ hwf hd)]
      simp only [List.length_append] at hf
      cases f with
      | zero => omega
      | succ g =>
        rw [readLoop_txt_blank g _]
        rw [ih hrest (g + 1) (by omega)]

theorem txt_roundtrip (rs : List YPBankRecord)
    (h : ∀ r ∈ rs, WfRecord r ∧ DescOkTxt r.description) :
    txtReadAll (writeAll .txt rs) = .ok rs := by
  unfold txtReadAll
  show readLoop txtRecordFromRead (((rs.map txtWriteRecord).flatten).length + 1)
    ((rs.map txtWriteRecord).flatten) = .ok rs
  exact readLoop_txt rs h _ (by omega)

/-! ## C1: the round-trip law -/

/-- C1 counterexample: a well-formed record whose description is valid
UTF-8 but contains a bare (unquoted) delimiter character does not survive
the delimited-text round-trip: the writer emits the description verbatim
and unquoted, so the reader tokenizes 9 fields and fails with
`InvalidRow`. -/
theorem csv_roundtrip_desc_comma :
    WfRecord ⟨1, .transfer, 1, 1, 1, 1, .success, asciiBytes "a,b"⟩ ∧
    validUtf8 (asciiBytes "a,b") = true ∧
    readAll .csv (writeAll .csv [⟨1, .transfer, 1, 1, 1, 1, .success, asciiBytes "a,b"⟩]) =
      .error (.invalidRow (asciiBytes "Expected 8 fields, got 9")) ∧
    readAll .csv (writeAll .csv [⟨1, .transfer, 1, 1, 1, 1, .success, asciiBytes "a,b"⟩]) ≠
      .ok [⟨1, .transfer, 1, 1, 1, 1, .success, asciiBytes "a,b"⟩] := by
  unfold WfRecord
  decide

/-- C1 (amended): for every format, writing a record list and reading the
bytes back yields exactly the original list, provided every record is
well-formed and its description satisfies the per-format side condition
`DescOk` (delimited text: nonempty printable description, not ending in a
space, every delimiter occurrence quote-protected; labeled text: printable
colon-free description with no leading or trailing space; binary: any
valid UTF-8 description fitting the u32 length fields). -/
theorem roundtrip_spec (F : Format) (rs : List YPBankRecord)
    (h : ∀ r ∈ rs, WfRecord r ∧ DescOk F r.description) :
    readAll F (writeAll F rs) = .ok rs := by
  cases F with
  | csv => exact csv_roundtrip rs h
  | txt => exact txt_roundtrip rs h
  | bin => exact bin_roundtrip rs h

/-- C1 witness: the binary round-trip of one concrete record. -/
theorem roundtrip_spec_witness :
    (∀ r ∈ [(⟨1, .deposit, 0, 2, -5, 3, .pending, asciiBytes "ok"⟩ : YPBankRecord)],
      WfRecord r ∧ DescOk .bin r.description) ∧
    readAll .bin (writeAll .bin [⟨1, .deposit, 0, 2, -5, 3, .pending, asciiBytes "ok"⟩]) =
      .ok [⟨1, .deposit, 0, 2, -5, 3, .pending, asciiBytes "ok"⟩] :=
  ⟨by unfold WfRecord DescOk DescOkBin; decide,
    roundtrip_spec .bin [⟨1, .deposit, 0, 2, -5, 3, .pending, asciiBytes "ok"⟩]
      (by unfold WfRecord DescOk DescOkBin; decide)⟩

end YPBank
